import Mathlib

/-!
Verification of the section-grouping core of `word_file_parser`.

The repository contains two variants of `docx_parser.py`:
a list-based one at `src/docx_parser.py` (here suffix `A`: it skips the
first heading as the document title, collects leading content into an
"Introduction" section and keeps only `NarrativeText`/`ListItem` content),
and a dict-based one at `src/src/word_file_parser/docx_parser.py`
(here suffix `B`: no skipping, sections keyed by title in a dict, every
non-heading element appended to the open section).

Elements come from the external partitioner collaborator; following the
data model of the specification they are embedded as a closed tagged
union, so the `isinstance` chains of the source become exhaustive
matches on disjoint tags.  Python truthiness of optional strings, lists
and byte strings is modelled explicitly where the source relies on it.
Filesystem effects are embedded as explicit operations applied to an
explicit filesystem state.
-/

set_option autoImplicit false

namespace WordFileParser

/-- One extracted document element, the tagged variant of the data model:
Heading/Title (text plus optional style-name metadata), NarrativeText,
ListItem, Table (its rendered text), Image (optional raw bytes, optional
caption), FigureCaption, and generic Text. -/
inductive Elem where
  | title (text : String) (styleName : Option String)
  | narrativeText (text : String)
  | listItem (text : String)
  | table (text : String)
  | image (bytes : Option (List Nat)) (caption : Option String)
  | figureCaption (text : String)
  | plainText (text : String)
deriving Repr, DecidableEq

/-- Is the element a Heading/Title?  (`isinstance(element, Title)`) -/
def isTitleE : Elem → Bool
  | .title _ _ => true
  | _ => false

/-- Is the element content that variant A appends
(`isinstance(element, (NarrativeText, ListItem))`)? -/
def isContentA : Elem → Bool
  | .narrativeText _ => true
  | .listItem _ => true
  | _ => false

/-- The heading texts of a sequence, in order. -/
def titleTexts (es : List Elem) : List String :=
  es.filterMap fun e =>
    match e with
    | .title t _ => some t
    | _ => none

/-- The texts that variant A appends as content, in order
(`str(element)` of a NarrativeText or ListItem is its text). -/
def contentTextsA (es : List Elem) : List String :=
  es.filterMap fun e =>
    match e with
    | .narrativeText t => some t
    | .listItem t => some t
    | _ => none

/-- `str.lower()` (ASCII model). -/
def pyLower (s : String) : String := String.mk (s.data.map Char.toLower)

/-- `s.startswith(p)`. -/
def pyStartsWith (s p : String) : Bool := p.data.isPrefixOf s.data

/-- Python truthiness of `Optional[str]`: `None` and `""` are falsy. -/
def truthyStr : Option String → Bool
  | none => false
  | some t => t ≠ ""

/-- `DocxParser._get_heading_level` of `src/docx_parser.py` lines 43-53:
read the optional `style_name` metadata (missing attribute defaults to
`""` via `getattr`); if its lowercase form starts with `"heading"`,
return the final character parsed as a decimal digit (`int(s[-1])`),
falling back to 1 on parse failure; otherwise return 1. -/
def getHeadingLevel (styleName : Option String) : Nat :=
  let sn := styleName.getD ""
  if pyStartsWith (pyLower sn) "heading" then
    match sn.data.getLast? with
    | some c => if c.isDigit then c.toNat - 48 else 1
    | none => 1
  else 1

/-- The `Section` dataclass of `src/docx_parser.py`: title, content lines,
outline level. -/
structure SectionA where
  title : String
  content : List String
  level : Nat
deriving Repr, DecidableEq

/-- `"\n".join(lines)`. -/
def joinLines : List String → String
  | [] => ""
  | [x] => x
  | x :: y :: xs => x ++ "\n" ++ joinLines (y :: xs)

/-- `Section.__str__`: hash marks for the level, a space, the title, a
blank line, then the content lines joined by newlines. -/
def strSectionA (s : SectionA) : String :=
  String.mk (List.replicate s.level '#') ++ " " ++ s.title ++ "\n\n" ++ joinLines s.content

/-- The loop state of `DocxParser.parse_sections` in `src/docx_parser.py`:
`current_section`, `current_content`, `current_level`, `title_skipped`,
and the accumulated `self.sections`. -/
structure StateA where
  currentSection : Option String
  currentContent : List String
  currentLevel : Nat
  titleSkipped : Bool
  sections : List SectionA
deriving Repr, DecidableEq

/-- The initial state of `parse_sections` (lines 62-66). -/
def initA : StateA := ⟨none, [], 1, false, []⟩

/-- One iteration of the `parse_sections` loop (lines 68-89).  A Title is
skipped while `title_skipped` is unset; afterwards a Title finalizes the
current section when `current_section` is truthy (a set, non-empty
string) and opens a new one with the heading text and resolved level.
NarrativeText and ListItem open `"Introduction"` when no section is open
and append their text; every other element kind is ignored. -/
def stepA (s : StateA) (e : Elem) : StateA :=
  match e with
  | .title t sn =>
      if s.titleSkipped then
        let secs :=
          if truthyStr s.currentSection then
            s.sections ++ [⟨s.currentSection.getD "", s.currentContent, s.currentLevel⟩]
          else s.sections
        ⟨some t, [], getHeadingLevel sn, true, secs⟩
      else
        { s with titleSkipped := true }
  | .narrativeText t =>
      { s with currentSection := some (s.currentSection.getD "Introduction"),
               currentContent := s.currentContent ++ [t] }
  | .listItem t =>
      { s with currentSection := some (s.currentSection.getD "Introduction"),
               currentContent := s.currentContent ++ [t] }
  | _ => s

/-- The final save after the loop (lines 90-96): append the open section
when `current_section` is truthy. -/
def finishA (s : StateA) : List SectionA :=
  if truthyStr s.currentSection then
    s.sections ++ [⟨s.currentSection.getD "", s.currentContent, s.currentLevel⟩]
  else s.sections

/-- `DocxParser.parse_sections` of `src/docx_parser.py` (lines 55-97) as a
function of the element sequence; the method reassigns all of its state
(`self.sections = []` and fresh locals) on entry, so it is a pure
function of `self.elements`. -/
def parseA (es : List Elem) : List SectionA :=
  finishA (es.foldl stepA initA)

/-- `DocxParser.get_section_by_title` (lines 99-112): first section whose
title matches case-insensitively. -/
def getSectionByTitleA (secs : List SectionA) (title : String) : Option SectionA :=
  secs.find? fun s => pyLower s.title = pyLower title

/-- The safe filename stem of `save_section`:
`"".join(c if c.isalnum() else "_" for c in title)` (ASCII model of
`str.isalnum`). -/
def sanitizeTitle (t : String) : String :=
  String.mk (t.data.map fun c => if c.isAlphanum then c else '_')

/-- Assignment `m[k] = v` on an insertion-ordered dict (Python 3.7+
semantics): an existing key keeps its position and gets the new value, a
new key is appended at the end.  Key lists of reachable dict states are
duplicate-free, for which this first-occurrence replacement coincides
with dict assignment. -/
def upsert {β : Type} : List (String × β) → String → β → List (String × β)
  | [], k, v => [(k, v)]
  | p :: m, k, v => if p.1 = k then (k, v) :: m else p :: upsert m k v

/-- `m.get(k)` on the ordered-dict model. -/
def lookupKV {β : Type} : List (String × β) → String → Option β
  | [], _ => none
  | p :: m, k => if p.1 = k then some p.2 else lookupKV m k

/-- The parser state of the dict variant
(`src/src/word_file_parser/docx_parser.py`): `self.sections`,
`self._current_section`, `self._current_elements`.  It persists on the
instance across calls of `parse_sections`. -/
structure StateB where
  sections : List (String × List Elem)
  currentSection : Option String
  currentElements : List Elem
deriving Repr, DecidableEq

/-- The state of a freshly constructed parser (lines 39-41). -/
def initB : StateB := ⟨[], none, []⟩

/-- One iteration of the `parse_sections` loop of the dict variant
(lines 51-62): a Title saves the open section (`is not None` check) into
the dict and opens a new one; every other element is appended to the
open section and dropped when no section is open. -/
def stepB (s : StateB) (e : Elem) : StateB :=
  match e with
  | .title t _ =>
      let secs :=
        match s.currentSection with
        | some ct => upsert s.sections ct s.currentElements
        | none => s.sections
      ⟨secs, some t, []⟩
  | _ =>
      match s.currentSection with
      | some _ => { s with currentElements := s.currentElements ++ [e] }
      | none => s

/-- The final save of the dict variant (lines 64-66); `_current_section`
and `_current_elements` are left as they are. -/
def finishB (s : StateB) : StateB :=
  match s.currentSection with
  | some ct => { s with sections := upsert s.sections ct s.currentElements }
  | none => s

/-- One call of `parse_sections` of the dict variant (lines 43-68) from a
given instance state: the loop over the partitioned elements followed by
the final save. -/
def runB (s : StateB) (es : List Elem) : StateB :=
  finishB (es.foldl stepB s)

/-- `parse_sections` on a fresh parser: the returned `self.sections`. -/
def parseB (es : List Elem) : List (String × List Elem) :=
  (runB initB es).sections

/-- The text parts one element contributes in `get_section_text`
(lines 96-107), matching the `isinstance` dispatch read over the closed
element union: plain text kinds contribute their text, a Table
contributes a part with a leading blank line and a `Table:` line, an
Image contributes `"\n[Image]"` plus a caption part when `element.caption`
is truthy (set and non-empty), a FigureCaption a blank line and a
caption line; a Title contributes nothing. -/
def partsOfB : Elem → List String
  | .narrativeText t => [t]
  | .listItem t => [t]
  | .plainText t => [t]
  | .table t => ["\nTable:\n" ++ t]
  | .image _ cap =>
      "\n[Image]" :: (if truthyStr cap then ["Caption: " ++ cap.getD ""] else [])
  | .figureCaption t => ["\nCaption: " ++ t]
  | .title _ _ => []

/-- All text parts of a section's element list, in encounter order. -/
def partsB (es : List Elem) : List String :=
  es.foldr (fun e acc => partsOfB e ++ acc) []

/-- `DocxParser.get_section_text` (lines 83-109) on a parsed collection:
`None` when the title is absent or the element list is empty
(`if not elements`), otherwise the parts joined by newlines. -/
def getSectionTextB (m : List (String × List Elem)) (title : String) : Option String :=
  match lookupKV m title with
  | none => none
  | some es => if es.isEmpty then none else some (joinLines (partsB es))

/-- A filesystem effect: `mkdir(parents=True, exist_ok=True)`, a text
write (`open(..., "w")` / `write_text`, truncating), or a binary write. -/
inductive FileOp where
  | mkdirP (dir : String)
  | writeText (path : String) (content : String)
  | writeBytes (path : String) (bytes : List Nat)
deriving Repr, DecidableEq

/-- A filesystem state: the existing directories, the text files and the
binary files by path. -/
structure FSState where
  dirs : List String
  textFiles : List (String × String)
  binFiles : List (String × List Nat)
deriving Repr, DecidableEq

/-- Insert a key into a list when not already present (order-preserving). -/
def insKey (ks : List String) (k : String) : List String :=
  if k ∈ ks then ks else ks ++ [k]

/-- Apply one filesystem effect: directory creation is idempotent
(`exist_ok=True`), a write replaces any existing file at the path. -/
def FSState.applyOp : FSState → FileOp → FSState
  | fs, .mkdirP d => { fs with dirs := insKey fs.dirs d }
  | fs, .writeText p c => { fs with textFiles := upsert fs.textFiles p c }
  | fs, .writeBytes p b => { fs with binFiles := upsert fs.binFiles p b }

/-- The image writes of `save_section` (lines 131-136): enumerate ALL
elements of the section; an Image whose `element.image` is truthy
(bytes present and non-empty) is written to
`<title>_image_<i+1>.png` with `i` its 0-based position among all
elements.  `to_json` (lines 166-185) uses the identical
`enumerate`/`i+1` naming for `image_file` records. -/
def imageOps (title dir : String) (es : List Elem) : List FileOp :=
  es.enum.filterMap fun p =>
    match p.2 with
    | .image (some b) _ =>
        if b.isEmpty then none
        else some (.writeBytes (dir ++ "/" ++ title ++ "_image_" ++ toString (p.1 + 1) ++ ".png") b)
    | _ => none

/-- `DocxParser.save_section` of `src/docx_parser.py` (lines 141-153):
resolve the title case-insensitively, raise `ValueError` when no section
is found (`if not section`, and a dataclass instance is always truthy,
so this is a `None` test) before touching the filesystem; otherwise
create the output directory and write `str(section)` to
`<sanitized title>.txt`. -/
def saveA (secs : List SectionA) (title dir : String) (fs : FSState) :
    Except String Unit × FSState :=
  match getSectionByTitleA secs title with
  | none => (.error ("Section " ++ title ++ " not found."), fs)
  | some sec =>
      let fs1 := fs.applyOp (.mkdirP dir)
      let fs2 := fs1.applyOp
        (.writeText (dir ++ "/" ++ sanitizeTitle sec.title ++ ".txt") (strSectionA sec))
      (.ok (), fs2)

/-- `DocxParser.save_section` of the dict variant (lines 111-136):
`if not elements` raises `ValueError` when the title is absent OR its
element list is empty, before touching the filesystem; otherwise create
the directory, write the rendered text to `<title>.txt` (raw title, no
sanitization) when the text is truthy, then write the images. -/
def saveB (m : List (String × List Elem)) (title dir : String) (fs : FSState) :
    Except String Unit × FSState :=
  match lookupKV m title with
  | none => (.error ("Section not found: " ++ title), fs)
  | some es =>
      if es.isEmpty then (.error ("Section not found: " ++ title), fs)
      else
        let fs1 := fs.applyOp (.mkdirP dir)
        let txt := (getSectionTextB m title).getD ""
        let fs2 :=
          if txt = "" then fs1
          else fs1.applyOp (.writeText (dir ++ "/" ++ title ++ ".txt") txt)
        let fs3 := (imageOps title dir es).foldl FSState.applyOp fs2
        (.ok (), fs3)

/-- Does the `parse_sections` loop of the list variant create an
`"Introduction"` section?  It does exactly when a NarrativeText or
ListItem is scanned while `current_section` is unset, i.e. before the
second heading (the boolean argument records whether the first heading
has already been skipped). -/
def introCreatedA : Bool → List Elem → Bool
  | _, [] => false
  | skipped, e :: es =>
    match e with
    | .title _ _ => if skipped then false else introCreatedA true es
    | .narrativeText _ => true
    | .listItem _ => true
    | _ => introCreatedA skipped es

example : parseA [] = [] := rfl

example : getHeadingLevel (some "Heading 2") = 2 := by decide

example : getHeadingLevel (some "Heading 0") = 0 := by decide

example : getHeadingLevel none = 1 := by decide

example :
    parseA [.narrativeText "Lead-in.", .title "A" (some "Heading 1"), .listItem "item 1"]
      = [⟨"Introduction", ["Lead-in.", "item 1"], 1⟩] := by decide

/-! ### Lemmas about the list variant's grouping loop -/

lemma titleTexts_cons_title (t : String) (sn : Option String) (es : List Elem) :
    titleTexts (.title t sn :: es) = t :: titleTexts es := rfl

lemma titleTexts_cons_other (e : Elem) (es : List Elem) (h : isTitleE e = false) :
    titleTexts (e :: es) = titleTexts es := by
  cases e <;> simp_all [titleTexts, isTitleE]

/-- Steady state of the list variant: a non-empty-titled section is open
and the first heading has been skipped.  Every heading of the remainder
produces exactly one section, in order. -/
lemma titlesA_open (es : List Elem) :
    ∀ (ct : String) (c : List String) (l : Nat) (S : List SectionA),
      ct ≠ "" → (∀ t ∈ titleTexts es, t ≠ "") →
      (finishA (es.foldl stepA ⟨some ct, c, l, true, S⟩)).map SectionA.title
        = S.map SectionA.title ++ ct :: titleTexts es := by
  induction es with
  | nil =>
      intro ct c l S hct _
      simp [finishA, truthyStr, hct, titleTexts]
  | cons e es ih =>
      intro ct c l S hct hts
      cases e with
      | title t sn =>
          have ht : t ≠ "" := hts t (by simp [titleTexts_cons_title])
          have hts' : ∀ u ∈ titleTexts es, u ≠ "" := by
            intro u hu; exact hts u (by simp [titleTexts_cons_title, hu])
          rw [show ((Elem.title t sn :: es).foldl stepA ⟨some ct, c, l, true, S⟩)
                = es.foldl stepA ⟨some t, [], getHeadingLevel sn, true, S ++ [⟨ct, c, l⟩]⟩ by
              simp [stepA, truthyStr, hct]]
          have h2 := ih t [] (getHeadingLevel sn)
            (S ++ [{ title := ct, content := c, level := l }]) ht hts'
          rw [h2]
          simp [titleTexts_cons_title]
      | narrativeText t =>
          have hts' : ∀ u ∈ titleTexts es, u ≠ "" := by
            intro u hu; exact hts u (by simp [titleTexts_cons_other, isTitleE, hu])
          rw [show ((Elem.narrativeText t :: es).foldl stepA ⟨some ct, c, l, true, S⟩)
                = es.foldl stepA ⟨some ct, c ++ [t], l, true, S⟩ by simp [stepA]]
          rw [ih ct (c ++ [t]) l S hct hts']
          simp [titleTexts_cons_other, isTitleE]
      | listItem t =>
          have hts' : ∀ u ∈ titleTexts es, u ≠ "" := by
            intro u hu; exact hts u (by simp [titleTexts_cons_other, isTitleE, hu])
          rw [show ((Elem.listItem t :: es).foldl stepA ⟨some ct, c, l, true, S⟩)
                = es.foldl stepA ⟨some ct, c ++ [t], l, true, S⟩ by simp [stepA]]
          rw [ih ct (c ++ [t]) l S hct hts']
          simp [titleTexts_cons_other, isTitleE]
      | table t =>
          have hts' : ∀ u ∈ titleTexts es, u ≠ "" := by
            intro u hu; exact hts u (by simp [titleTexts_cons_other, isTitleE, hu])
          rw [show ((Elem.table t :: es).foldl stepA ⟨some ct, c, l, true, S⟩)
                = es.foldl stepA ⟨some ct, c, l, true, S⟩ by simp [stepA]]
          rw [ih ct c l S hct hts']
          simp [titleTexts_cons_other, isTitleE]
      | image b cap =>
          have hts' : ∀ u ∈ titleTexts es, u ≠ "" := by
            intro u hu; exact hts u (by simp [titleTexts_cons_other, isTitleE, hu])
          rw [show ((Elem.image b cap :: es).foldl stepA ⟨some ct, c, l, true, S⟩)
                = es.foldl stepA ⟨some ct, c, l, true, S⟩ by simp [stepA]]
          rw [ih ct c l S hct hts']
          simp [titleTexts_cons_other, isTitleE]
      | figureCaption t =>
          have hts' : ∀ u ∈ titleTexts es, u ≠ "" := by
            intro u hu; exact hts u (by simp [titleTexts_cons_other, isTitleE, hu])
          rw [show ((Elem.figureCaption t :: es).foldl stepA ⟨some ct, c, l, true, S⟩)
                = es.foldl stepA ⟨some ct, c, l, true, S⟩ by simp [stepA]]
          rw [ih ct c l S hct hts']
          simp [titleTexts_cons_other, isTitleE]
      | plainText t =>
          have hts' : ∀ u ∈ titleTexts es, u ≠ "" := by
            intro u hu; exact hts u (by simp [titleTexts_cons_other, isTitleE, hu])
          rw [show ((Elem.plainText t :: es).foldl stepA ⟨some ct, c, l, true, S⟩)
                = es.foldl stepA ⟨some ct, c, l, true, S⟩ by simp [stepA]]
          rw [ih ct c l S hct hts']
          simp [titleTexts_cons_other, isTitleE]

/-- State right after the first heading was skipped with nothing open:
each remaining heading produces one section, preceded by an
`"Introduction"` section exactly when content appears before the next
heading. -/
lemma titlesA_skipped (es : List Elem) :
    ∀ (c : List String) (l : Nat),
      (∀ t ∈ titleTexts es, t ≠ "") →
      (finishA (es.foldl stepA ⟨none, c, l, true, []⟩)).map SectionA.title
        = (if introCreatedA true es then ["Introduction"] else []) ++ titleTexts es := by
  induction es with
  | nil =>
      intro c l _
      simp [finishA, truthyStr, titleTexts, introCreatedA]
  | cons e es ih =>
      intro c l hts
      cases e with
      | title t sn =>
          have ht : t ≠ "" := hts t (by simp [titleTexts_cons_title])
          have hts' : ∀ u ∈ titleTexts es, u ≠ "" := by
            intro u hu; exact hts u (by simp [titleTexts_cons_title, hu])
          rw [show ((Elem.title t sn :: es).foldl stepA ⟨none, c, l, true, []⟩)
                = es.foldl stepA ⟨some t, [], getHeadingLevel sn, true, []⟩ by
              simp [stepA, truthyStr]]
          rw [titlesA_open es t [] (getHeadingLevel sn) [] ht hts']
          simp [titleTexts_cons_title, introCreatedA]
      | narrativeText t =>
          have hts' : ∀ u ∈ titleTexts es, u ≠ "" := by
            intro u hu; exact hts u (by simp [titleTexts_cons_other, isTitleE, hu])
          rw [show ((Elem.narrativeText t :: es).foldl stepA ⟨none, c, l, true, []⟩)
                = es.foldl stepA ⟨some "Introduction", c ++ [t], l, true, []⟩ by
              simp [stepA]]
          rw [titlesA_open es "Introduction" (c ++ [t]) l [] (by decide) hts']
          simp [titleTexts_cons_other, isTitleE, introCreatedA]
      | listItem t =>
          have hts' : ∀ u ∈ titleTexts es, u ≠ "" := by
            intro u hu; exact hts u (by simp [titleTexts_cons_other, isTitleE, hu])
          rw [show ((Elem.listItem t :: es).foldl stepA ⟨none, c, l, true, []⟩)
                = es.foldl stepA ⟨some "Introduction", c ++ [t], l, true, []⟩ by
              simp [stepA]]
          rw [titlesA_open es "Introduction" (c ++ [t]) l [] (by decide) hts']
          simp [titleTexts_cons_other, isTitleE, introCreatedA]
      | table t =>
          have hts' : ∀ u ∈ titleTexts es, u ≠ "" := by
            intro u hu; exact hts u (by simp [titleTexts_cons_other, isTitleE, hu])
          rw [show ((Elem.table t :: es).foldl stepA ⟨none, c, l, true, []⟩)
                = es.foldl stepA ⟨none, c, l, true, []⟩ by simp [stepA]]
          rw [ih c l hts']
          simp [titleTexts_cons_other, isTitleE, introCreatedA]
      | image b cap =>
          have hts' : ∀ u ∈ titleTexts es, u ≠ "" := by
            intro u hu; exact hts u (by simp [titleTexts_cons_other, isTitleE, hu])
          rw [show ((Elem.image b cap :: es).foldl stepA ⟨none, c, l, true, []⟩)
                = es.foldl stepA ⟨none, c, l, true, []⟩ by simp [stepA]]
          rw [ih c l hts']
          simp [titleTexts_cons_other, isTitleE, introCreatedA]
      | figureCaption t =>
          have hts' : ∀ u ∈ titleTexts es, u ≠ "" := by
            intro u hu; exact hts u (by simp [titleTexts_cons_other, isTitleE, hu])
          rw [show ((Elem.figureCaption t :: es).foldl stepA ⟨none, c, l, true, []⟩)
                = es.foldl stepA ⟨none, c, l, true, []⟩ by simp [stepA]]
          rw [ih c l hts']
          simp [titleTexts_cons_other, isTitleE, introCreatedA]
      | plainText t =>
          have hts' : ∀ u ∈ titleTexts es, u ≠ "" := by
            intro u hu; exact hts u (by simp [titleTexts_cons_other, isTitleE, hu])
          rw [show ((Elem.plainText t :: es).foldl stepA ⟨none, c, l, true, []⟩)
                = es.foldl stepA ⟨none, c, l, true, []⟩ by simp [stepA]]
          rw [ih c l hts']
          simp [titleTexts_cons_other, isTitleE, introCreatedA]

/-- State where leading content already opened `"Introduction"` but no
heading has been skipped yet: the first heading is still discarded, so
the result is `"Introduction"` followed by the headings after the
first. -/
lemma titlesA_intro_open (es : List Elem) :
    ∀ (c : List String) (l : Nat),
      (∀ t ∈ titleTexts es, t ≠ "") →
      (finishA (es.foldl stepA ⟨some "Introduction", c, l, false, []⟩)).map SectionA.title
        = "Introduction" :: (titleTexts es).drop 1 := by
  induction es with
  | nil =>
      intro c l _
      simp [finishA, truthyStr, titleTexts]
  | cons e es ih =>
      intro c l hts
      cases e with
      | title t sn =>
          have hts' : ∀ u ∈ titleTexts es, u ≠ "" := by
            intro u hu; exact hts u (by simp [titleTexts_cons_title, hu])
          rw [show ((Elem.title t sn :: es).foldl stepA ⟨some "Introduction", c, l, false, []⟩)
                = es.foldl stepA ⟨some "Introduction", c, l, true, []⟩ by simp [stepA]]
          rw [titlesA_open es "Introduction" c l [] (by decide) hts']
          simp [titleTexts_cons_title]
      | narrativeText t =>
          have hts' : ∀ u ∈ titleTexts es, u ≠ "" := by
            intro u hu; exact hts u (by simp [titleTexts_cons_other, isTitleE, hu])
          rw [show ((Elem.narrativeText t :: es).foldl stepA ⟨some "Introduction", c, l, false, []⟩)
                = es.foldl stepA ⟨some "Introduction", c ++ [t], l, false, []⟩ by simp [stepA]]
          rw [ih (c ++ [t]) l hts']
          simp [titleTexts_cons_other, isTitleE]
      | listItem t =>
          have hts' : ∀ u ∈ titleTexts es, u ≠ "" := by
            intro u hu; exact hts u (by simp [titleTexts_cons_other, isTitleE, hu])
          rw [show ((Elem.listItem t :: es).foldl stepA ⟨some "Introduction", c, l, false, []⟩)
                = es.foldl stepA ⟨some "Introduction", c ++ [t], l, false, []⟩ by simp [stepA]]
          rw [ih (c ++ [t]) l hts']
          simp [titleTexts_cons_other, isTitleE]
      | table t =>
          have hts' : ∀ u ∈ titleTexts es, u ≠ "" := by
            intro u hu; exact hts u (by simp [titleTexts_cons_other, isTitleE, hu])
          rw [show ((Elem.table t :: es).foldl stepA ⟨some "Introduction", c, l, false, []⟩)
                = es.foldl stepA ⟨some "Introduction", c, l, false, []⟩ by simp [stepA]]
          rw [ih c l hts']
          simp [titleTexts_cons_other, isTitleE]
      | image b cap =>
          have hts' : ∀ u ∈ titleTexts es, u ≠ "" := by
            intro u hu; exact hts u (by simp [titleTexts_cons_other, isTitleE, hu])
          rw [show ((Elem.image b cap :: es).foldl stepA ⟨some "Introduction", c, l, false, []⟩)
                = es.foldl stepA ⟨some "Introduction", c, l, false, []⟩ by simp [stepA]]
          rw [ih c l hts']
          simp [titleTexts_cons_other, isTitleE]
      | figureCaption t =>
          have hts' : ∀ u ∈ titleTexts es, u ≠ "" := by
            intro u hu; exact hts u (by simp [titleTexts_cons_other, isTitleE, hu])
          rw [show ((Elem.figureCaption t :: es).foldl stepA ⟨some "Introduction", c, l, false, []⟩)
                = es.foldl stepA ⟨some "Introduction", c, l, false, []⟩ by simp [stepA]]
          rw [ih c l hts']
          simp [titleTexts_cons_other, isTitleE]
      | plainText t =>
          have hts' : ∀ u ∈ titleTexts es, u ≠ "" := by
            intro u hu; exact hts u (by simp [titleTexts_cons_other, isTitleE, hu])
          rw [show ((Elem.plainText t :: es).foldl stepA ⟨some "Introduction", c, l, false, []⟩)
                = es.foldl stepA ⟨some "Introduction", c, l, false, []⟩ by simp [stepA]]
          rw [ih c l hts']
          simp [titleTexts_cons_other, isTitleE]

/-- The titles produced by the list variant, in order: an
`"Introduction"` entry exactly when content appears before the second
heading, followed by the texts of all headings after the first
(duplicates preserved), provided no heading text is empty. -/
lemma titlesA_main (es : List Elem) (hts : ∀ t ∈ titleTexts es, t ≠ "") :
    (parseA es).map SectionA.title
      = (if introCreatedA false es then ["Introduction"] else []) ++ (titleTexts es).drop 1 := by
  induction es with
  | nil => simp [parseA, initA, finishA, truthyStr, titleTexts, introCreatedA]
  | cons e es ih =>
      cases e with
      | title t sn =>
          have hts' : ∀ u ∈ titleTexts es, u ≠ "" := by
            intro u hu; exact hts u (by simp [titleTexts_cons_title, hu])
          unfold parseA
          rw [show ((Elem.title t sn :: es).foldl stepA initA)
                = es.foldl stepA ⟨none, [], 1, true, []⟩ by simp [stepA, initA]]
          rw [titlesA_skipped es [] 1 hts']
          simp [titleTexts_cons_title, introCreatedA]
      | narrativeText t =>
          have hts' : ∀ u ∈ titleTexts es, u ≠ "" := by
            intro u hu; exact hts u (by simp [titleTexts_cons_other, isTitleE, hu])
          unfold parseA
          rw [show ((Elem.narrativeText t :: es).foldl stepA initA)
                = es.foldl stepA ⟨some "Introduction", [t], 1, false, []⟩ by simp [stepA, initA]]
          rw [titlesA_intro_open es [t] 1 hts']
          simp [titleTexts_cons_other, isTitleE, introCreatedA]
      | listItem t =>
          have hts' : ∀ u ∈ titleTexts es, u ≠ "" := by
            intro u hu; exact hts u (by simp [titleTexts_cons_other, isTitleE, hu])
          unfold parseA
          rw [show ((Elem.listItem t :: es).foldl stepA initA)
                = es.foldl stepA ⟨some "Introduction", [t], 1, false, []⟩ by simp [stepA, initA]]
          rw [titlesA_intro_open es [t] 1 hts']
          simp [titleTexts_cons_other, isTitleE, introCreatedA]
      | table t =>
          have hts' : ∀ u ∈ titleTexts es, u ≠ "" := by
            intro u hu; exact hts u (by simp [titleTexts_cons_other, isTitleE, hu])
          unfold parseA
          rw [show ((Elem.table t :: es).foldl stepA initA)
                = es.foldl stepA initA by simp [stepA, initA]]
          rw [show finishA (es.foldl stepA initA) = parseA es from rfl, ih hts']
          simp [titleTexts_cons_other, isTitleE, introCreatedA]
      | image b cap =>
          have hts' : ∀ u ∈ titleTexts es, u ≠ "" := by
            intro u hu; exact hts u (by simp [titleTexts_cons_other, isTitleE, hu])
          unfold parseA
          rw [show ((Elem.image b cap :: es).foldl stepA initA)
                = es.foldl stepA initA by simp [stepA, initA]]
          rw [show finishA (es.foldl stepA initA) = parseA es from rfl, ih hts']
          simp [titleTexts_cons_other, isTitleE, introCreatedA]
      | figureCaption t =>
          have hts' : ∀ u ∈ titleTexts es, u ≠ "" := by
            intro u hu; exact hts u (by simp [titleTexts_cons_other, isTitleE, hu])
          unfold parseA
          rw [show ((Elem.figureCaption t :: es).foldl stepA initA)
                = es.foldl stepA initA by simp [stepA, initA]]
          rw [show finishA (es.foldl stepA initA) = parseA es from rfl, ih hts']
          simp [titleTexts_cons_other, isTitleE, introCreatedA]
      | plainText t =>
          have hts' : ∀ u ∈ titleTexts es, u ≠ "" := by
            intro u hu; exact hts u (by simp [titleTexts_cons_other, isTitleE, hu])
          unfold parseA
          rw [show ((Elem.plainText t :: es).foldl stepA initA)
                = es.foldl stepA initA by simp [stepA, initA]]
          rw [show finishA (es.foldl stepA initA) = parseA es from rfl, ih hts']
          simp [titleTexts_cons_other, isTitleE, introCreatedA]

/-- One loop step only ever appends to the accumulated section list. -/
lemma stepA_sections (s : StateA) (e : Elem) :
    ∃ add, (stepA s e).sections = s.sections ++ add := by
  cases e with
  | title t sn =>
      by_cases hsk : s.titleSkipped
      · by_cases htr : truthyStr s.currentSection = true
        · exact ⟨[⟨s.currentSection.getD "", s.currentContent, s.currentLevel⟩],
            by simp [stepA, hsk, htr]⟩
        · exact ⟨[], by simp [stepA, hsk, htr]⟩
      · exact ⟨[], by simp [stepA, hsk]⟩
  | narrativeText t => exact ⟨[], by simp [stepA]⟩
  | listItem t => exact ⟨[], by simp [stepA]⟩
  | table t => exact ⟨[], by simp [stepA]⟩
  | image b cap => exact ⟨[], by simp [stepA]⟩
  | figureCaption t => exact ⟨[], by simp [stepA]⟩
  | plainText t => exact ⟨[], by simp [stepA]⟩

/-- The whole pass only ever appends to the accumulated section list. -/
lemma finishA_foldA_mono (es : List Elem) :
    ∀ s : StateA, ∃ tail, finishA (es.foldl stepA s) = s.sections ++ tail := by
  induction es with
  | nil =>
      intro s
      by_cases htr : truthyStr s.currentSection = true
      · exact ⟨[⟨s.currentSection.getD "", s.currentContent, s.currentLevel⟩],
          by simp [finishA, htr]⟩
      · exact ⟨[], by simp [finishA, htr]⟩
  | cons e es ih =>
      intro s
      obtain ⟨tail, htail⟩ := ih (stepA s e)
      obtain ⟨add, hadd⟩ := stepA_sections s e
      exact ⟨add ++ tail, by simp [htail, hadd]⟩

/-- Once `"Introduction"` is open at level 1 with no finalized section
yet, the first section of the final result is an `"Introduction"`
section at level 1 (whatever else follows). -/
lemma headA_intro (es : List Elem) :
    ∀ (c : List String) (sk : Bool),
      ∃ con rest, finishA (es.foldl stepA ⟨some "Introduction", c, 1, sk, []⟩)
        = ⟨"Introduction", con, 1⟩ :: rest := by
  induction es with
  | nil =>
      intro c sk
      exact ⟨c, [], by simp [finishA, truthyStr]⟩
  | cons e es ih =>
      intro c sk
      cases e with
      | title t sn =>
          cases sk with
          | false =>
              rw [show ((Elem.title t sn :: es).foldl stepA ⟨some "Introduction", c, 1, false, []⟩)
                    = es.foldl stepA ⟨some "Introduction", c, 1, true, []⟩ by simp [stepA]]
              exact ih c true
          | true =>
              rw [show ((Elem.title t sn :: es).foldl stepA ⟨some "Introduction", c, 1, true, []⟩)
                    = es.foldl stepA ⟨some t, [], getHeadingLevel sn, true,
                        [⟨"Introduction", c, 1⟩]⟩ by simp [stepA, truthyStr]]
              obtain ⟨tail, htail⟩ := finishA_foldA_mono es
                ⟨some t, [], getHeadingLevel sn, true, [⟨"Introduction", c, 1⟩]⟩
              exact ⟨c, tail, by simpa using htail⟩
      | narrativeText t =>
          rw [show ((Elem.narrativeText t :: es).foldl stepA ⟨some "Introduction", c, 1, sk, []⟩)
                = es.foldl stepA ⟨some "Introduction", c ++ [t], 1, sk, []⟩ by simp [stepA]]
          exact ih (c ++ [t]) sk
      | listItem t =>
          rw [show ((Elem.listItem t :: es).foldl stepA ⟨some "Introduction", c, 1, sk, []⟩)
                = es.foldl stepA ⟨some "Introduction", c ++ [t], 1, sk, []⟩ by simp [stepA]]
          exact ih (c ++ [t]) sk
      | table t =>
          rw [show ((Elem.table t :: es).foldl stepA ⟨some "Introduction", c, 1, sk, []⟩)
                = es.foldl stepA ⟨some "Introduction", c, 1, sk, []⟩ by simp [stepA]]
          exact ih c sk
      | image b cap =>
          rw [show ((Elem.image b cap :: es).foldl stepA ⟨some "Introduction", c, 1, sk, []⟩)
                = es.foldl stepA ⟨some "Introduction", c, 1, sk, []⟩ by simp [stepA]]
          exact ih c sk
      | figureCaption t =>
          rw [show ((Elem.figureCaption t :: es).foldl stepA ⟨some "Introduction", c, 1, sk, []⟩)
                = es.foldl stepA ⟨some "Introduction", c, 1, sk, []⟩ by simp [stepA]]
          exact ih c sk
      | plainText t =>
          rw [show ((Elem.plainText t :: es).foldl stepA ⟨some "Introduction", c, 1, sk, []⟩)
                = es.foldl stepA ⟨some "Introduction", c, 1, sk, []⟩ by simp [stepA]]
          exact ih c sk

/-- Scanning a heading-free leading segment from the initial state keeps
level 1, no skipped heading and no finalized sections, with
`current_section` either unset or `"Introduction"`. -/
lemma preA_state (pre : List Elem) (h : ∀ x ∈ pre, isTitleE x = false) :
    ∃ c, pre.foldl stepA initA = ⟨none, c, 1, false, []⟩
      ∨ pre.foldl stepA initA = ⟨some "Introduction", c, 1, false, []⟩ := by
  induction pre using List.reverseRecOn with
  | nil => exact ⟨[], Or.inl rfl⟩
  | append_singleton pre e ih =>
      have hpre : ∀ x ∈ pre, isTitleE x = false := fun x hx => h x (by simp [hx])
      have he : isTitleE e = false := h e (by simp)
      obtain ⟨c, hc | hc⟩ := ih hpre <;>
        cases e <;> simp_all [stepA, isTitleE] <;>
        first
          | exact ⟨c ++ [_], Or.inr (by simp [hc])⟩
          | exact ⟨c, Or.inl (by simp [hc])⟩
          | exact ⟨c, Or.inr (by simp [hc])⟩

/-- Scanning a heading-free segment while a section is open appends the
texts of its NarrativeText/ListItem elements and nothing else
(list variant). -/
lemma foldA_content (ws : List Elem) :
    ∀ (ct : String) (c : List String) (l : Nat) (S : List SectionA),
      (∀ x ∈ ws, isTitleE x = false) →
      ws.foldl stepA ⟨some ct, c, l, true, S⟩
        = ⟨some ct, c ++ contentTextsA ws, l, true, S⟩ := by
  induction ws with
  | nil => intro ct c l S _; simp [contentTextsA]
  | cons e ws ih =>
      intro ct c l S h
      have hws : ∀ x ∈ ws, isTitleE x = false := fun x hx => h x (by simp [hx])
      have he : isTitleE e = false := h e (by simp)
      cases e <;> simp_all [stepA, contentTextsA, isTitleE] <;>
        rw [ih _ _ _ _ hws] <;> simp

/-- Scanning a heading-free segment while a section is open appends every
element to it, in order (dict variant). -/
lemma foldB_content (ws : List Elem) :
    ∀ (m : List (String × List Elem)) (u : String) (ce : List Elem),
      (∀ x ∈ ws, isTitleE x = false) →
      ws.foldl stepB ⟨m, some u, ce⟩ = ⟨m, some u, ce ++ ws⟩ := by
  induction ws with
  | nil => intro m u ce _; simp
  | cons e ws ih =>
      intro m u ce h
      have hws : ∀ x ∈ ws, isTitleE x = false := fun x hx => h x (by simp [hx])
      have he : isTitleE e = false := h e (by simp)
      cases e <;> simp_all [stepB, isTitleE] <;> rw [ih _ _ _ hws] <;> simp

/-! ### The dict variant's pass as a sequence of dict assignments -/

/-- Apply a list of dict assignments in order. -/
def applyUps : List (String × List Elem) → List (String × List Elem) → List (String × List Elem)
  | m, [] => m
  | m, u :: us => applyUps (upsert m u.1 u.2) us

/-- The dict assignments one `parse_sections` call performs, as a
function of `_current_section`, `_current_elements` and the remaining
elements (the final save included). -/
def upsList : Option String → List Elem → List Elem → List (String × List Elem)
  | cs, ce, [] =>
      match cs with
      | some t => [(t, ce)]
      | none => []
  | cs, ce, e :: es =>
      match e with
      | .title t _ =>
          (match cs with
           | some u => [(u, ce)]
           | none => []) ++ upsList (some t) [] es
      | _ =>
          match cs with
          | some _ => upsList cs (ce ++ [e]) es
          | none => upsList cs ce es

/-- The `_current_section` left by the loop, as a function of its initial
value and the elements. -/
def finalCs : Option String → List Elem → Option String
  | cs, [] => cs
  | cs, e :: es =>
      match e with
      | .title t _ => finalCs (some t) es
      | _ => finalCs cs es

lemma applyUps_append (xs ys : List (String × List Elem)) :
    ∀ m, applyUps m (xs ++ ys) = applyUps (applyUps m xs) ys := by
  induction xs with
  | nil => intro m; simp [applyUps]
  | cons u xs ih => intro m; simp [applyUps, ih]

lemma finishB_currentSection (s : StateB) : (finishB s).currentSection = s.currentSection := by
  cases h : s.currentSection <;> simp [finishB, h]

lemma finishB_currentElements (s : StateB) : (finishB s).currentElements = s.currentElements := by
  cases h : s.currentSection <;> simp [finishB, h]

lemma foldB_currentSection (es : List Elem) :
    ∀ s : StateB, (es.foldl stepB s).currentSection = finalCs s.currentSection es := by
  induction es with
  | nil => intro s; simp [finalCs]
  | cons e es ih =>
      intro s
      cases e with
      | title t sn => simp [stepB, ih, finalCs]
      | narrativeText t => cases h : s.currentSection <;> simp [stepB, h, ih, finalCs]
      | listItem t => cases h : s.currentSection <;> simp [stepB, h, ih, finalCs]
      | table t => cases h : s.currentSection <;> simp [stepB, h, ih, finalCs]
      | image b cap => cases h : s.currentSection <;> simp [stepB, h, ih, finalCs]
      | figureCaption t => cases h : s.currentSection <;> simp [stepB, h, ih, finalCs]
      | plainText t => cases h : s.currentSection <;> simp [stepB, h, ih, finalCs]

/-- One `parse_sections` call factors into the dict assignments
`upsList` applied to the incoming dict. -/
lemma runB_factor (es : List Elem) :
    ∀ (m : List (String × List Elem)) (cs : Option String) (ce : List Elem),
      (runB ⟨m, cs, ce⟩ es).sections = applyUps m (upsList cs ce es) := by
  induction es with
  | nil =>
      intro m cs ce
      cases cs <;> simp [runB, finishB, upsList, applyUps]
  | cons e es ih =>
      intro m cs ce
      cases e with
      | title t sn =>
          cases cs with
          | none =>
              rw [show runB ⟨m, none, ce⟩ (.title t sn :: es) = runB ⟨m, some t, []⟩ es by
                simp [runB, stepB]]
              simp [ih, upsList, applyUps]
          | some u =>
              rw [show runB ⟨m, some u, ce⟩ (.title t sn :: es)
                    = runB ⟨upsert m u ce, some t, []⟩ es by simp [runB, stepB]]
              simp [ih, upsList, applyUps]
      | narrativeText x =>
          cases cs with
          | none =>
              rw [show runB ⟨m, none, ce⟩ (.narrativeText x :: es) = runB ⟨m, none, ce⟩ es by
                simp [runB, stepB]]
              simp [ih, upsList]
          | some u =>
              rw [show runB ⟨m, some u, ce⟩ (.narrativeText x :: es)
                    = runB ⟨m, some u, ce ++ [.narrativeText x]⟩ es by simp [runB, stepB]]
              simp [ih, upsList]
      | listItem x =>
          cases cs with
          | none =>
              rw [show runB ⟨m, none, ce⟩ (.listItem x :: es) = runB ⟨m, none, ce⟩ es by
                simp [runB, stepB]]
              simp [ih, upsList]
          | some u =>
              rw [show runB ⟨m, some u, ce⟩ (.listItem x :: es)
                    = runB ⟨m, some u, ce ++ [.listItem x]⟩ es by simp [runB, stepB]]
              simp [ih, upsList]
      | table x =>
          cases cs with
          | none =>
              rw [show runB ⟨m, none, ce⟩ (.table x :: es) = runB ⟨m, none, ce⟩ es by
                simp [runB, stepB]]
              simp [ih, upsList]
          | some u =>
              rw [show runB ⟨m, some u, ce⟩ (.table x :: es)
                    = runB ⟨m, some u, ce ++ [.table x]⟩ es by simp [runB, stepB]]
              simp [ih, upsList]
      | image b cap =>
          cases cs with
          | none =>
              rw [show runB ⟨m, none, ce⟩ (.image b cap :: es) = runB ⟨m, none, ce⟩ es by
                simp [runB, stepB]]
              simp [ih, upsList]
          | some u =>
              rw [show runB ⟨m, some u, ce⟩ (.image b cap :: es)
                    = runB ⟨m, some u, ce ++ [.image b cap]⟩ es by simp [runB, stepB]]
              simp [ih, upsList]
      | figureCaption x =>
          cases cs with
          | none =>
              rw [show runB ⟨m, none, ce⟩ (.figureCaption x :: es) = runB ⟨m, none, ce⟩ es by
                simp [runB, stepB]]
              simp [ih, upsList]
          | some u =>
              rw [show runB ⟨m, some u, ce⟩ (.figureCaption x :: es)
                    = runB ⟨m, some u, ce ++ [.figureCaption x]⟩ es by simp [runB, stepB]]
              simp [ih, upsList]
      | plainText x =>
          cases cs with
          | none =>
              rw [show runB ⟨m, none, ce⟩ (.plainText x :: es) = runB ⟨m, none, ce⟩ es by
                simp [runB, stepB]]
              simp [ih, upsList]
          | some u =>
              rw [show runB ⟨m, some u, ce⟩ (.plainText x :: es)
                    = runB ⟨m, some u, ce ++ [.plainText x]⟩ es by simp [runB, stepB]]
              simp [ih, upsList]

/-! ### Ordered-dict algebra -/

lemma lookup_upsert {β : Type} (m : List (String × β)) (k : String) (v : β) (t : String) :
    lookupKV (upsert m k v) t = if t = k then some v else lookupKV m t := by
  induction m with
  | nil => by_cases h : t = k <;> simp [upsert, lookupKV, h, Ne.symm]
  | cons p m ih =>
      by_cases h1 : p.1 = k
      · subst h1
        by_cases h2 : t = p.1
        · simp [upsert, lookupKV, h2]
        · have h3 : ¬ p.1 = t := fun h => h2 (Eq.symm h)
          simp [upsert, lookupKV, h2, h3]
      · by_cases h2 : p.1 = t
        · have h3 : ¬ t = k := fun h => h1 (h2.trans h)
          simp [upsert, lookupKV, h1, h2, h3]
        · simp [upsert, lookupKV, h1, h2, ih]

lemma keys_upsert {β : Type} (m : List (String × β)) (k : String) (v : β) :
    (upsert m k v).map Prod.fst = insKey (m.map Prod.fst) k := by
  induction m with
  | nil => simp [upsert, insKey]
  | cons p m ih =>
      by_cases h1 : p.1 = k
      · simp [upsert, insKey, h1]
      · have : k ∈ p.1 :: m.map Prod.fst ↔ k ∈ m.map Prod.fst := by
          simp [Ne.symm h1]
        by_cases h2 : k ∈ m.map Prod.fst <;>
          simp [upsert, insKey, h1, h2, ih, this]

lemma lookup_eq_none_iff {β : Type} (m : List (String × β)) (t : String) :
    lookupKV m t = none ↔ t ∉ m.map Prod.fst := by
  induction m with
  | nil => simp [lookupKV]
  | cons p m ih =>
      by_cases h : p.1 = t <;> simp [lookupKV, h, ih, Ne.symm]

lemma lookup_append {β : Type} (a b : List (String × β)) (t : String) :
    lookupKV (a ++ b) t
      = match lookupKV a t with
        | some v => some v
        | none => lookupKV b t := by
  induction a with
  | nil => simp [lookupKV]
  | cons p a ih => by_cases h : p.1 = t <;> simp [lookupKV, h, ih]

/-- The value of the LAST assignment to a key in an assignment sequence. -/
def lastVal {β : Type} (us : List (String × β)) (t : String) : Option β :=
  lookupKV us.reverse t

lemma lastVal_nil {β : Type} (t : String) : lastVal ([] : List (String × β)) t = none := rfl

lemma lastVal_cons {β : Type} (u : String × β) (us : List (String × β)) (t : String) :
    lastVal (u :: us) t
      = match lastVal us t with
        | some v => some v
        | none => if u.1 = t then some u.2 else none := by
  unfold lastVal
  rw [List.reverse_cons, lookup_append]
  cases h : lookupKV us.reverse t <;> simp [lookupKV, h]

lemma lookup_applyUps (us : List (String × List Elem)) :
    ∀ (m : List (String × List Elem)) (t : String),
      lookupKV (applyUps m us) t
        = match lastVal us t with
          | some v => some v
          | none => lookupKV m t := by
  induction us with
  | nil => intro m t; simp [applyUps, lastVal_nil]
  | cons u us ih =>
      intro m t
      rw [show applyUps m (u :: us) = applyUps (upsert m u.1 u.2) us from rfl, ih]
      rw [lastVal_cons, lookup_upsert]
      cases h : lastVal us t with
      | some v => simp
      | none =>
          by_cases ht : t = u.1
          · simp [ht]
          · simp only [if_neg ht, if_neg (fun h => ht (Eq.symm h))]

lemma keys_applyUps (us : List (String × List Elem)) :
    ∀ m : List (String × List Elem),
      (applyUps m us).map Prod.fst
        = (us.map Prod.fst).foldl insKey (m.map Prod.fst) := by
  induction us with
  | nil => intro m; simp [applyUps]
  | cons u us ih =>
      intro m
      rw [show applyUps m (u :: us) = applyUps (upsert m u.1 u.2) us from rfl, ih]
      simp [keys_upsert]

lemma mem_insKey (ks : List String) (a k : String) :
    k ∈ insKey ks a ↔ k ∈ ks ∨ k = a := by
  by_cases h : a ∈ ks
  · constructor
    · intro hm; simp_all [insKey]
    · intro hm; rcases hm with hm | hm
      · simpa [insKey, h]
      · simpa [insKey, h, hm]
  · simp [insKey, h]

lemma mem_foldl_insKey_of_mem_init (L : List String) :
    ∀ (ks : List String) (k : String), k ∈ ks → k ∈ L.foldl insKey ks := by
  induction L with
  | nil => intro ks k h; simpa
  | cons a L ih =>
      intro ks k h
      exact ih (insKey ks a) k ((mem_insKey ks a k).mpr (Or.inl h))

lemma mem_foldl_insKey_of_mem (L : List String) :
    ∀ (ks : List String) (k : String), k ∈ L → k ∈ L.foldl insKey ks := by
  induction L with
  | nil => intro ks k h; simp at h
  | cons a L ih =>
      intro ks k h
      rcases List.mem_cons.mp h with h | h
      · exact mem_foldl_insKey_of_mem_init L (insKey ks a) k
          ((mem_insKey ks a k).mpr (Or.inr h))
      · exact ih (insKey ks a) k h

lemma mem_of_mem_foldl_insKey (L : List String) :
    ∀ (ks : List String) (k : String), k ∈ L.foldl insKey ks → k ∈ ks ∨ k ∈ L := by
  induction L with
  | nil => intro ks k h; exact Or.inl (by simpa using h)
  | cons a L ih =>
      intro ks k h
      rcases ih (insKey ks a) k h with h1 | h1
      · rcases (mem_insKey ks a k).mp h1 with h2 | h2
        · exact Or.inl h2
        · exact Or.inr (by simp [h2])
      · exact Or.inr (by simp [h1])

lemma foldl_insKey_of_subset (L : List String) :
    ∀ ks : List String, (∀ k ∈ L, k ∈ ks) → L.foldl insKey ks = ks := by
  induction L with
  | nil => intro ks _; rfl
  | cons a L ih =>
      intro ks h
      have ha : a ∈ ks := h a (by simp)
      rw [show (a :: L).foldl insKey ks = L.foldl insKey (insKey ks a) from rfl]
      rw [show insKey ks a = ks by simp [insKey, ha]]
      exact ih ks fun k hk => h k (by simp [hk])

lemma nodup_insKey (ks : List String) (a : String) (h : ks.Nodup) : (insKey ks a).Nodup := by
  by_cases ha : a ∈ ks
  · simpa [insKey, ha]
  · simp [insKey, ha, List.nodup_append, h]

lemma nodup_foldl_insKey (L : List String) :
    ∀ ks : List String, ks.Nodup → (L.foldl insKey ks).Nodup := by
  induction L with
  | nil => intro ks h; simpa
  | cons a L ih => intro ks h; exact ih (insKey ks a) (nodup_insKey ks a h)

/-- Two ordered dicts with the same duplicate-free key sequence and the
same lookups are equal. -/
lemma eq_of_keys_lookup {β : Type} :
    ∀ (m1 m2 : List (String × β)),
      (m1.map Prod.fst).Nodup →
      m1.map Prod.fst = m2.map Prod.fst →
      (∀ t, lookupKV m1 t = lookupKV m2 t) → m1 = m2 := by
  intro m1
  induction m1 with
  | nil =>
      intro m2 _ hk _
      cases m2 with
      | nil => rfl
      | cons q m2 => simp at hk
  | cons p m1 ih =>
      intro m2 hnd hk hl
      cases m2 with
      | nil => simp at hk
      | cons q m2 =>
          simp only [List.map_cons, List.cons.injEq] at hk
          obtain ⟨hk1, hk2⟩ := hk
          have hv : p.2 = q.2 := by
            have := hl p.1
            simp [lookupKV, hk1] at this
            exact this
          have hnd1 : (m1.map Prod.fst).Nodup := (List.nodup_cons.mp hnd).2
          have hp1 : p.1 ∉ m1.map Prod.fst := (List.nodup_cons.mp hnd).1
          have htl : ∀ t, lookupKV m1 t = lookupKV m2 t := by
            intro t
            by_cases ht : t = p.1
            · subst ht
              rw [(lookup_eq_none_iff m1 p.1).mpr hp1]
              rw [(lookup_eq_none_iff m2 p.1).mpr (by rw [← hk2]; exact hp1)]
            · have h1 : ¬ p.1 = t := fun h => ht (Eq.symm h)
              have h2 : ¬ q.1 = t := fun h => h1 (hk1.trans h)
              have := hl t
              simp only [lookupKV, if_neg h1, if_neg h2] at this
              exact this
          have := ih m2 hnd1 hk2 htl
          cases p; cases q
          simp_all

/-- Applying an assignment sequence to a base dict whose key sequence is
exactly that of applying it to the empty dict gives the same result:
every base entry is overwritten and no key moves. -/
lemma applyUps_base_irrel (U B : List (String × List Elem))
    (hk : B.map Prod.fst = (applyUps [] U).map Prod.fst) :
    applyUps B U = applyUps [] U := by
  have hkeysE : (applyUps [] U).map Prod.fst = (U.map Prod.fst).foldl insKey [] := by
    simpa using keys_applyUps U []
  have hsub1 : ∀ k ∈ U.map Prod.fst, k ∈ (applyUps [] U).map Prod.fst := by
    intro k hkU
    rw [hkeysE]
    exact mem_foldl_insKey_of_mem _ _ _ hkU
  have hsub2 : ∀ k ∈ (applyUps [] U).map Prod.fst, k ∈ U.map Prod.fst := by
    intro k hkE
    rw [hkeysE] at hkE
    rcases mem_of_mem_foldl_insKey _ _ _ hkE with h | h
    · simp at h
    · exact h
  have hkeysB : (applyUps B U).map Prod.fst = (applyUps [] U).map Prod.fst := by
    rw [keys_applyUps U B, hk, hkeysE]
    exact foldl_insKey_of_subset _ _ fun k hkU => mem_foldl_insKey_of_mem _ _ _ hkU
  have hnd : ((applyUps B U).map Prod.fst).Nodup := by
    rw [hkeysB, hkeysE]
    exact nodup_foldl_insKey _ _ (by simp)
  apply eq_of_keys_lookup _ _ hnd hkeysB
  intro t
  rw [lookup_applyUps U B t, lookup_applyUps U [] t]
  cases hlv : lastVal U t with
  | some v => simp
  | none =>
      have htU : t ∉ U.map Prod.fst := by
        have := (lookup_eq_none_iff U.reverse t).mp hlv
        simpa using this
      have htB : t ∉ B.map Prod.fst := by
        rw [hk]
        exact fun hc => htU (hsub2 t hc)
      simp [lookupKV, (lookup_eq_none_iff B t).mpr htB]

/-! ### Lemmas for re-running the dict variant's pass -/

lemma foldB_no_title (es : List Elem) :
    ∀ (m : List (String × List Elem)) (ce : List Elem),
      (∀ x ∈ es, isTitleE x = false) →
      es.foldl stepB ⟨m, none, ce⟩ = ⟨m, none, ce⟩ := by
  induction es with
  | nil => intro m ce _; rfl
  | cons e es ih =>
      intro m ce h
      have hes : ∀ x ∈ es, isTitleE x = false := fun x hx => h x (by simp [hx])
      have he : isTitleE e = false := h e (by simp)
      cases e <;> simp_all [stepB, isTitleE] <;> exact ih m ce hes

lemma exists_first_title (es : List Elem) (h : es.any isTitleE = true) :
    ∃ pre t sn rest, es = pre ++ .title t sn :: rest
      ∧ ∀ x ∈ pre, isTitleE x = false := by
  induction es with
  | nil => simp at h
  | cons e es ih =>
      cases he : isTitleE e with
      | true =>
          cases e with
          | title t sn => exact ⟨[], t, sn, es, by simp⟩
          | _ => simp [isTitleE] at he
      | false =>
          have h2 : es.any isTitleE = true := by
            rcases List.any_eq_true.mp h with ⟨x, hx, hpx⟩
            rcases List.mem_cons.mp hx with rfl | hx
            · rw [he] at hpx; cases hpx
            · exact List.any_eq_true.mpr ⟨x, hx, hpx⟩
          obtain ⟨pre, t, sn, rest, heq, hpre⟩ := ih h2
          refine ⟨e :: pre, t, sn, rest, by simp [heq], ?_⟩
          intro x hx
          rcases List.mem_cons.mp hx with rfl | hx
          · exact he
          · exact hpre x hx

lemma upsList_none_split (pre : List Elem) :
    ∀ (ce : List Elem) (t : String) (sn : Option String) (rest : List Elem),
      (∀ x ∈ pre, isTitleE x = false) →
      upsList none ce (pre ++ .title t sn :: rest) = upsList (some t) [] rest := by
  induction pre with
  | nil => intro ce t sn rest _; simp [upsList]
  | cons e pre ih =>
      intro ce t sn rest h
      have hpre : ∀ x ∈ pre, isTitleE x = false := fun x hx => h x (by simp [hx])
      have he : isTitleE e = false := h e (by simp)
      cases e <;> simp_all [upsList, isTitleE] <;> exact ih ce t sn rest hpre

lemma upsList_some_split (pre : List Elem) :
    ∀ (u : String) (ce : List Elem) (t : String) (sn : Option String) (rest : List Elem),
      (∀ x ∈ pre, isTitleE x = false) →
      upsList (some u) ce (pre ++ .title t sn :: rest)
        = (u, ce ++ pre) :: upsList (some t) [] rest := by
  induction pre with
  | nil => intro u ce t sn rest _; simp [upsList]
  | cons e pre ih =>
      intro u ce t sn rest h
      have hpre : ∀ x ∈ pre, isTitleE x = false := fun x hx => h x (by simp [hx])
      have he : isTitleE e = false := h e (by simp)
      cases e <;> simp_all [upsList, isTitleE] <;>
        rw [ih u (ce ++ [_]) t sn rest hpre] <;> simp

lemma finalCs_some_of_some (es : List Elem) :
    ∀ t : String, ∃ tl, finalCs (some t) es = some tl := by
  induction es with
  | nil => intro t; exact ⟨t, rfl⟩
  | cons e es ih =>
      intro t
      cases e <;> simp [finalCs] <;> exact ih _

lemma finalCs_mem_upsList (es : List Elem) :
    ∀ (cs : Option String) (ce : List Elem) (tl : String),
      finalCs cs es = some tl → tl ∈ (upsList cs ce es).map Prod.fst := by
  induction es with
  | nil =>
      intro cs ce tl h
      cases cs with
      | none => simp [finalCs] at h
      | some t => simp [finalCs] at h; simp [upsList, h]
  | cons e es ih =>
      intro cs ce tl h
      cases e with
      | title t sn =>
          have h2 : finalCs (some t) es = some tl := h
          have := ih (some t) [] tl h2
          cases cs <;> simp [upsList] <;> simp_all
      | narrativeText x =>
          cases cs with
          | none => exact ih none ce tl h
          | some u => exact ih (some u) (ce ++ [.narrativeText x]) tl h
      | listItem x =>
          cases cs with
          | none => exact ih none ce tl h
          | some u => exact ih (some u) (ce ++ [.listItem x]) tl h
      | table x =>
          cases cs with
          | none => exact ih none ce tl h
          | some u => exact ih (some u) (ce ++ [.table x]) tl h
      | image b cap =>
          cases cs with
          | none => exact ih none ce tl h
          | some u => exact ih (some u) (ce ++ [.image b cap]) tl h
      | figureCaption x =>
          cases cs with
          | none => exact ih none ce tl h
          | some u => exact ih (some u) (ce ++ [.figureCaption x]) tl h
      | plainText x =>
          cases cs with
          | none => exact ih none ce tl h
          | some u => exact ih (some u) (ce ++ [.plainText x]) tl h

/-- Claim C9 (confirmed): calling `parse_sections` twice on the same
element sequence yields a structurally identical sections collection,
regardless of the parser state left by the first call.  For the dict
variant this is non-trivial: the second call starts from the leftover
`self.sections`, `_current_section` and `_current_elements`, and its
first dict save pollutes the last section's entry with the pre-heading
content, but the entry is re-saved with the correct value before the
call ends and no key changes position.  (The list variant reassigns all
of its state on entry — `self.sections = []` and fresh locals — so its
embedding `parseA` is a pure function of the elements and idempotence is
definitional.) -/
theorem c9_theorem (es : List Elem) :
    (runB (runB initB es) es).sections = (runB initB es).sections := by
  cases hany : es.any isTitleE with
  | false =>
      have hfree : ∀ x ∈ es, isTitleE x = false := by
        intro x hx
        by_contra hc
        have : es.any isTitleE = true :=
          List.any_eq_true.mpr ⟨x, hx, by simpa using hc⟩
        rw [hany] at this; cases this
      have h1 : runB initB es = initB := by
        unfold runB
        rw [show initB = ⟨[], none, []⟩ from rfl, foldB_no_title es [] [] hfree]
        rfl
      rw [h1, h1]
  | true =>
      obtain ⟨pre, t, sn, rest, heq, hpre⟩ := exists_first_title es hany
      -- the first run factors over the empty dict
      have hU1 : (runB initB es).sections = applyUps [] (upsList (some t) [] rest) := by
        rw [show initB = ⟨[], none, []⟩ from rfl, runB_factor es [] none []]
        rw [heq, upsList_none_split pre [] t sn rest hpre]
      -- the state left by the first run has an open section
      have hcs : ∃ tl, (runB initB es).currentSection = some tl := by
        have h1 : (runB initB es).currentSection = finalCs none es := by
          unfold runB
          rw [finishB_currentSection]
          exact foldB_currentSection es initB
        rw [h1, heq]
        rw [show finalCs none (pre ++ .title t sn :: rest) = finalCs (some t) rest by
          clear hU1 h1 heq
          induction pre with
          | nil => rfl
          | cons e pre ih =>
              have he : isTitleE e = false := hpre e (by simp)
              have hpre2 : ∀ x ∈ pre, isTitleE x = false := fun x hx => hpre x (by simp [hx])
              cases e <;> simp_all [finalCs, isTitleE]]
        exact finalCs_some_of_some rest t
      obtain ⟨tl, htl⟩ := hcs
      -- the second run factors over the first run's dict
      have hU2 : (runB (runB initB es) es).sections
          = applyUps (upsert (runB initB es).sections tl
              ((runB initB es).currentElements ++ pre)) (upsList (some t) [] rest) := by
        have heta : runB initB es
            = (⟨(runB initB es).sections, (runB initB es).currentSection,
                (runB initB es).currentElements⟩ : StateB) := rfl
        rw [show runB (runB initB es) es
              = runB ⟨(runB initB es).sections, (runB initB es).currentSection,
                  (runB initB es).currentElements⟩ es from rfl]
        rw [htl, runB_factor es _ (some tl) _]
        rw [heq, upsList_some_split pre tl _ t sn rest hpre]
        rfl
      -- the leftover title is among the keys the assignments write
      have htlmem : tl ∈ (upsList (some t) [] rest).map Prod.fst := by
        have h1 : finalCs none es = some tl := by
          have h2 : (runB initB es).currentSection = finalCs none es := by
            unfold runB
            rw [finishB_currentSection]
            exact foldB_currentSection es initB
          rw [← h2, htl]
        have := finalCs_mem_upsList es none [] tl h1
        rw [heq, upsList_none_split pre [] t sn rest hpre] at this
        exact this
      -- so overwriting its value in the base dict moves no key
      set U := upsList (some t) [] rest with hUdef
      have hkeys : (upsert (runB initB es).sections tl
            ((runB initB es).currentElements ++ pre)).map Prod.fst
          = (applyUps [] U).map Prod.fst := by
        rw [keys_upsert, hU1]
        have htl2 : tl ∈ (applyUps [] U).map Prod.fst := by
          rw [show (applyUps [] U).map Prod.fst
                = (U.map Prod.fst).foldl insKey (([] : List (String × List Elem)).map Prod.fst)
              from keys_applyUps U []]
          exact mem_foldl_insKey_of_mem _ _ _ htlmem
        simp [insKey, htl2]
      rw [hU1] at hU2 hkeys
      rw [hU2, hU1]
      exact applyUps_base_irrel U _ hkeys

/-! ### Keys of the dict variant's result -/

/-- First-occurrence deduplication (the key sequence a dict acquires
when fed these keys in order). -/
def dedupFirst (L : List String) : List String := L.foldl insKey []

lemma keys_upsList_some (es : List Elem) :
    ∀ (u : String) (ce : List Elem),
      (upsList (some u) ce es).map Prod.fst = u :: titleTexts es := by
  induction es with
  | nil => intro u ce; simp [upsList, titleTexts]
  | cons e es ih =>
      intro u ce
      cases e with
      | title t sn => simp [upsList, ih, titleTexts_cons_title]
      | narrativeText x => simpa [upsList, titleTexts_cons_other, isTitleE] using ih u (ce ++ [.narrativeText x])
      | listItem x => simpa [upsList, titleTexts_cons_other, isTitleE] using ih u (ce ++ [.listItem x])
      | table x => simpa [upsList, titleTexts_cons_other, isTitleE] using ih u (ce ++ [.table x])
      | image b cap => simpa [upsList, titleTexts_cons_other, isTitleE] using ih u (ce ++ [.image b cap])
      | figureCaption x => simpa [upsList, titleTexts_cons_other, isTitleE] using ih u (ce ++ [.figureCaption x])
      | plainText x => simpa [upsList, titleTexts_cons_other, isTitleE] using ih u (ce ++ [.plainText x])

lemma keys_upsList_none (es : List Elem) :
    ∀ ce : List Elem, (upsList none ce es).map Prod.fst = titleTexts es := by
  induction es with
  | nil => intro ce; simp [upsList, titleTexts]
  | cons e es ih =>
      intro ce
      cases e with
      | title t sn => simp [upsList, keys_upsList_some, titleTexts_cons_title]
      | narrativeText x => simpa [upsList, titleTexts_cons_other, isTitleE] using ih ce
      | listItem x => simpa [upsList, titleTexts_cons_other, isTitleE] using ih ce
      | table x => simpa [upsList, titleTexts_cons_other, isTitleE] using ih ce
      | image b cap => simpa [upsList, titleTexts_cons_other, isTitleE] using ih ce
      | figureCaption x => simpa [upsList, titleTexts_cons_other, isTitleE] using ih ce
      | plainText x => simpa [upsList, titleTexts_cons_other, isTitleE] using ih ce

/-- The dict variant's section keys are the heading texts deduplicated
to their first occurrence. -/
lemma keys_parseB (es : List Elem) :
    (parseB es).map Prod.fst = dedupFirst (titleTexts es) := by
  unfold parseB
  rw [show initB = ⟨[], none, []⟩ from rfl, runB_factor es [] none []]
  rw [show (applyUps [] (upsList none [] es)).map Prod.fst
        = ((upsList none [] es).map Prod.fst).foldl insKey
            (([] : List (String × List Elem)).map Prod.fst)
      from keys_applyUps _ []]
  rw [keys_upsList_none es []]
  rfl

lemma mem_dedupFirst (L : List String) (k : String) : k ∈ dedupFirst L ↔ k ∈ L := by
  constructor
  · intro h
    rcases mem_of_mem_foldl_insKey L [] k h with h | h
    · simp at h
    · exact h
  · intro h
    exact mem_foldl_insKey_of_mem L [] k h

lemma nodup_dedupFirst (L : List String) : (dedupFirst L).Nodup :=
  nodup_foldl_insKey L [] (by simp)

/-! ### Lemmas about the renderer -/

lemma partsB_append (es : List Elem) (e : Elem) :
    partsB (es ++ [e]) = partsB es ++ partsOfB e := by
  induction es with
  | nil => simp [partsB]
  | cons x es ih => simp [partsB] at ih ⊢; simp [ih]

lemma joinLines_append (P Q : List String) (hP : P ≠ []) (hQ : Q ≠ []) :
    joinLines (P ++ Q) = joinLines P ++ "\n" ++ joinLines Q := by
  induction P with
  | nil => cases hP rfl
  | cons x P ih =>
      cases P with
      | nil =>
          cases Q with
          | nil => cases hQ rfl
          | cons y Q => simp [joinLines]
      | cons z P2 =>
          have h2 := ih (by simp)
          simp only [List.cons_append, joinLines] at h2 ⊢
          simp [h2, String.append_assoc]

/-! ### Lemmas about the export/save layer -/

lemma imageOps_all_writeBytes (title dir : String) (es : List Elem) :
    ∀ op ∈ imageOps title dir es, ∃ p b, op = .writeBytes p b := by
  intro op hop
  unfold imageOps at hop
  rcases List.mem_filterMap.mp hop with ⟨a, _, ha⟩
  rcases a with ⟨i, e⟩
  cases e with
  | image ob cap =>
      cases ob with
      | none => simp at ha
      | some b2 =>
          by_cases hb : b2.isEmpty = true <;> simp [hb] at ha
          exact ⟨_, _, ha.symm⟩
  | title t sn => simp at ha
  | narrativeText t => simp at ha
  | listItem t => simp at ha
  | table t => simp at ha
  | figureCaption t => simp at ha
  | plainText t => simp at ha

lemma foldl_applyOp_textFiles (ops : List FileOp) :
    ∀ fs : FSState, (∀ op ∈ ops, ∃ p b, op = .writeBytes p b) →
      (ops.foldl FSState.applyOp fs).textFiles = fs.textFiles := by
  induction ops with
  | nil => intro fs _; rfl
  | cons op ops ih =>
      intro fs h
      obtain ⟨p, b, rfl⟩ := h op (by simp)
      rw [show (FileOp.writeBytes p b :: ops).foldl FSState.applyOp fs
            = ops.foldl FSState.applyOp (fs.applyOp (.writeBytes p b)) from rfl]
      rw [ih _ fun o ho => h o (by simp [ho])]
      rfl

/-! ### Claim C1 -/

/-- Claim C1 as stated is false: on the input NarrativeText "Lead-in.",
Heading "A" (level 1), ListItem "item 1", the list variant produces ONE
section ("Introduction" with both content lines, because the first
heading is discarded as the document title), not the two sections the
claim expects; the dict variant drops the pre-heading content and
produces one section "A". -/
theorem c1_counterexample :
    parseA [.narrativeText "Lead-in.", .title "A" (some "Heading 1"), .listItem "item 1"]
      = [⟨"Introduction", ["Lead-in.", "item 1"], 1⟩]
    ∧ (parseA [.narrativeText "Lead-in.", .title "A" (some "Heading 1"),
        .listItem "item 1"]).length ≠ 2
    ∧ parseB [.narrativeText "Lead-in.", .title "A" (some "Heading 1"), .listItem "item 1"]
      = [("A", [.listItem "item 1"])] :=
  ⟨by decide, by decide, by decide⟩

/-- Claim C1 amended: in the list variant, content (NarrativeText or
ListItem) appearing before any heading opens a section titled
"Introduction" at level 1, which is the first section of the result; on
the input NarrativeText "Lead-in.", Heading "A", ListItem "item 1" the
list variant produces exactly ONE section, "Introduction" with content
["Lead-in.", "item 1"], since the first heading is discarded as the
document title and the list item continues the Introduction section. -/
theorem c1_amended (pre rest : List Elem) (e : Elem)
    (hpre : ∀ x ∈ pre, isTitleE x = false) (he : isContentA e = true) :
    (∃ s rest2, parseA (pre ++ e :: rest) = s :: rest2
      ∧ s.title = "Introduction" ∧ s.level = 1)
    ∧ parseA [.narrativeText "Lead-in.", .title "A" (some "Heading 1"), .listItem "item 1"]
        = [⟨"Introduction", ["Lead-in.", "item 1"], 1⟩] := by
  constructor
  · have hsplit : parseA (pre ++ e :: rest)
        = finishA (rest.foldl stepA (stepA (pre.foldl stepA initA) e)) := by
      simp [parseA, List.foldl_append]
    obtain ⟨c, hc | hc⟩ := preA_state pre hpre
    · cases e with
      | narrativeText t =>
          rw [hsplit, hc]
          rw [show stepA ⟨none, c, 1, false, []⟩ (.narrativeText t)
                = ⟨some "Introduction", c ++ [t], 1, false, []⟩ by simp [stepA]]
          obtain ⟨con, r2, hr⟩ := headA_intro rest (c ++ [t]) false
          exact ⟨_, r2, hr, rfl, rfl⟩
      | listItem t =>
          rw [hsplit, hc]
          rw [show stepA ⟨none, c, 1, false, []⟩ (.listItem t)
                = ⟨some "Introduction", c ++ [t], 1, false, []⟩ by simp [stepA]]
          obtain ⟨con, r2, hr⟩ := headA_intro rest (c ++ [t]) false
          exact ⟨_, r2, hr, rfl, rfl⟩
      | title t sn => simp [isContentA] at he
      | table t => simp [isContentA] at he
      | image b cap => simp [isContentA] at he
      | figureCaption t => simp [isContentA] at he
      | plainText t => simp [isContentA] at he
    · cases e with
      | narrativeText t =>
          rw [hsplit, hc]
          rw [show stepA ⟨some "Introduction", c, 1, false, []⟩ (.narrativeText t)
                = ⟨some "Introduction", c ++ [t], 1, false, []⟩ by simp [stepA]]
          obtain ⟨con, r2, hr⟩ := headA_intro rest (c ++ [t]) false
          exact ⟨_, r2, hr, rfl, rfl⟩
      | listItem t =>
          rw [hsplit, hc]
          rw [show stepA ⟨some "Introduction", c, 1, false, []⟩ (.listItem t)
                = ⟨some "Introduction", c ++ [t], 1, false, []⟩ by simp [stepA]]
          obtain ⟨con, r2, hr⟩ := headA_intro rest (c ++ [t]) false
          exact ⟨_, r2, hr, rfl, rfl⟩
      | title t sn => simp [isContentA] at he
      | table t => simp [isContentA] at he
      | image b cap => simp [isContentA] at he
      | figureCaption t => simp [isContentA] at he
      | plainText t => simp [isContentA] at he
  · decide

/-- Witness for the amended C1 at a concrete input. -/
theorem c1_witness :
    (∃ s rest2, parseA ([] ++ .narrativeText "x" :: []) = s :: rest2
      ∧ s.title = "Introduction" ∧ s.level = 1)
    ∧ parseA [.narrativeText "Lead-in.", .title "A" (some "Heading 1"), .listItem "item 1"]
        = [⟨"Introduction", ["Lead-in.", "item 1"], 1⟩] :=
  c1_amended [] [] (.narrativeText "x") (by simp) (by decide)

/-! ### Claim C2 -/

/-- Claim C2 as stated is false on the dict variant: two headings with
the identical title "X" produce a single dict entry (the later content
overwrites the earlier at the first occurrence's position), not two
independent entries. -/
theorem c2_counterexample :
    parseB [.title "X" none, .narrativeText "a", .title "X" none, .narrativeText "b"]
      = [("X", [.narrativeText "b"])]
    ∧ (titleTexts [.title "X" none, .narrativeText "a", .title "X" none,
        .narrativeText "b"]).length = 2
    ∧ (parseB [.title "X" none, .narrativeText "a", .title "X" none,
        .narrativeText "b"]).length ≠ 2 :=
  ⟨by decide, by decide, by decide⟩

/-- Claim C2 amended: in the list variant the section titles are exactly
the heading texts after the first, in input order, duplicates kept as
independent entries, preceded by "Introduction" when content precedes
the second heading (assuming non-empty heading texts); in the dict
variant the keys are the heading texts deduplicated to their first
occurrence, so a repeated title yields one entry whose content is the
last occurrence's. -/
theorem c2_amended (es : List Elem) (h : ∀ t ∈ titleTexts es, t ≠ "") :
    (parseA es).map SectionA.title
      = (if introCreatedA false es then ["Introduction"] else []) ++ (titleTexts es).drop 1
    ∧ parseA [.title "D" none, .title "X" none, .narrativeText "a",
        .title "X" none, .narrativeText "b"]
        = [⟨"X", ["a"], 1⟩, ⟨"X", ["b"], 1⟩]
    ∧ (parseB es).map Prod.fst = dedupFirst (titleTexts es) :=
  ⟨titlesA_main es h, by decide, keys_parseB es⟩

/-- Witness for the amended C2 at a concrete input. -/
theorem c2_witness :
    (parseA [.title "T" none, .title "U" none]).map SectionA.title
      = (if introCreatedA false [.title "T" none, .title "U" none]
          then ["Introduction"] else [])
        ++ (titleTexts [.title "T" none, .title "U" none]).drop 1
    ∧ parseA [.title "D" none, .title "X" none, .narrativeText "a",
        .title "X" none, .narrativeText "b"]
        = [⟨"X", ["a"], 1⟩, ⟨"X", ["b"], 1⟩]
    ∧ (parseB [.title "T" none, .title "U" none]).map Prod.fst
        = dedupFirst (titleTexts [.title "T" none, .title "U" none]) :=
  c2_amended [.title "T" none, .title "U" none] (by decide)

/-! ### Claim C3 -/

/-- Claim C3 as stated is false: on Heading "D", NarrativeText "x",
Heading "A" (two headings, one after the first), the list variant
produces 2 sections ("Introduction" and "A"), not the claimed
2 - 1 = 1. -/
theorem c3_counterexample :
    parseA [.title "D" none, .narrativeText "x", .title "A" none]
      = [⟨"Introduction", ["x"], 1⟩, ⟨"A", [], 1⟩]
    ∧ (titleTexts [.title "D" none, .narrativeText "x", .title "A" none]).length = 2
    ∧ (parseA [.title "D" none, .narrativeText "x", .title "A" none]).length
        ≠ (titleTexts [.title "D" none, .narrativeText "x", .title "A" none]).length - 1 :=
  ⟨by decide, by decide, by decide⟩

/-- Claim C3 amended: for inputs with at least two headings (and
non-empty heading texts), the list variant produces (number of headings
minus one) sections, plus one more exactly when content precedes the
second heading (the implicit "Introduction" section); the dict variant
produces one entry per distinct heading title (collisions counted
once). -/
theorem c3_amended (es : List Elem) (h2 : 2 ≤ (titleTexts es).length)
    (h : ∀ t ∈ titleTexts es, t ≠ "") :
    (parseA es).length
      = (titleTexts es).length - 1 + (if introCreatedA false es then 1 else 0)
    ∧ (parseB es).length = (dedupFirst (titleTexts es)).length
    ∧ (dedupFirst (titleTexts es)).Nodup
    ∧ (∀ t, t ∈ dedupFirst (titleTexts es) ↔ t ∈ titleTexts es) := by
  refine ⟨?_, ?_, nodup_dedupFirst _, fun t => mem_dedupFirst _ t⟩
  · have hm := titlesA_main es h
    have hlen : ((parseA es).map SectionA.title).length = (parseA es).length :=
      List.length_map _ _
    rw [← hlen, hm]
    cases hintro : introCreatedA false es <;> simp [Nat.add_comm]
  · have := keys_parseB es
    have hlen : ((parseB es).map Prod.fst).length = (parseB es).length :=
      List.length_map _ _
    rw [← hlen, this]

/-- Witness for the amended C3 at a concrete input. -/
theorem c3_witness :
    (parseA [.title "T" none, .title "U" none]).length
      = (titleTexts [.title "T" none, .title "U" none]).length - 1
        + (if introCreatedA false [.title "T" none, .title "U" none] then 1 else 0)
    ∧ (parseB [.title "T" none, .title "U" none]).length
        = (dedupFirst (titleTexts [.title "T" none, .title "U" none])).length
    ∧ (dedupFirst (titleTexts [.title "T" none, .title "U" none])).Nodup
    ∧ (∀ t, t ∈ dedupFirst (titleTexts [.title "T" none, .title "U" none])
        ↔ t ∈ titleTexts [.title "T" none, .title "U" none]) :=
  c3_amended [.title "T" none, .title "U" none] (by decide) (by decide)

/-! ### Claim C4 -/

/-- Claim C4 as stated is false on the list variant: a Table scanned
while section "A" is open is dropped, not appended (the list variant
keeps only NarrativeText and ListItem). -/
theorem c4_counterexample :
    parseA [.title "D" none, .title "A" none, .table "t1"] = [⟨"A", [], 1⟩] := by
  decide

/-- Claim C4 amended: while a section is open, the dict variant appends
every non-heading element (all six content kinds) to it in encounter
order; the list variant appends only NarrativeText and ListItem texts,
dropping Table, Image, FigureCaption and generic Text. -/
theorem c4_amended (ws : List Elem) (t d : String) (sn sn2 : Option String)
    (hws : ∀ x ∈ ws, isTitleE x = false) (ht : t ≠ "") :
    parseB (.title t sn :: ws) = [(t, ws)]
    ∧ parseA (.title d sn2 :: .title t sn :: ws)
        = [⟨t, contentTextsA ws, getHeadingLevel sn⟩] := by
  constructor
  · unfold parseB runB
    rw [show (Elem.title t sn :: ws).foldl stepB initB
          = ws.foldl stepB ⟨[], some t, []⟩ by simp [stepB, initB]]
    rw [foldB_content ws [] t [] hws]
    simp [finishB, upsert]
  · unfold parseA
    rw [show (Elem.title d sn2 :: .title t sn :: ws).foldl stepA initA
          = ws.foldl stepA ⟨some t, [], getHeadingLevel sn, true, []⟩ by
        simp [stepA, initA, truthyStr]]
    rw [foldA_content ws t [] (getHeadingLevel sn) [] hws]
    simp [finishA, truthyStr, ht]

/-- Witness for the amended C4 at a concrete input. -/
theorem c4_witness :
    parseB (.title "A" none :: [.table "x"]) = [("A", [.table "x"])]
    ∧ parseA (.title "D" none :: .title "A" none :: [.table "x"])
        = [⟨"A", contentTextsA [.table "x"], getHeadingLevel none⟩] :=
  c4_amended [.table "x"] "A" "D" none none (by decide) (by decide)

/-! ### Claim C5 -/

/-- Claim C5 as stated is false in its positivity part: for style name
"Heading 0" all of the claim's conditions hold (present, starts with
"heading" case-insensitively, final character a digit), so the resolver
returns the parsed digit 0, which is not a positive integer. -/
theorem c5_counterexample :
    pyStartsWith (pyLower ((some "Heading 0").getD "")) "heading" = true
    ∧ ("Heading 0".data.getLast? = some '0')
    ∧ ('0').isDigit = true
    ∧ getHeadingLevel (some "Heading 0") = 0
    ∧ ¬ 0 < getHeadingLevel (some "Heading 0") :=
  ⟨by decide, by decide, by decide, by decide, by decide⟩

/-- Claim C5 amended: the resolver returns the final character of the
style name parsed as a decimal digit when the style name is present,
case-insensitively starts with "heading" and its final character is a
digit, and returns 1 in every other case; it is total (never raises),
but the returned level is 0 — not positive — exactly when the
successfully parsed final digit is 0. -/
theorem c5_amended (sn : Option String) :
    (pyStartsWith (pyLower (sn.getD "")) "heading" = true →
      ∀ c, (sn.getD "").data.getLast? = some c → c.isDigit = true →
        getHeadingLevel sn = c.toNat - 48)
    ∧ (pyStartsWith (pyLower (sn.getD "")) "heading" = false → getHeadingLevel sn = 1)
    ∧ (∀ c, (sn.getD "").data.getLast? = some c → c.isDigit = false →
        getHeadingLevel sn = 1)
    ∧ (getHeadingLevel sn = 0 →
        pyStartsWith (pyLower (sn.getD "")) "heading" = true
        ∧ ∃ c, (sn.getD "").data.getLast? = some c ∧ c.isDigit = true
            ∧ c.toNat - 48 = 0) := by
  refine ⟨?_, ?_, ?_, ?_⟩
  · intro hsw c hc hd
    unfold getHeadingLevel
    rw [if_pos hsw, hc]
    simp [hd]
  · intro hsw
    unfold getHeadingLevel
    rw [if_neg (by simp [hsw])]
  · intro c hc hd
    unfold getHeadingLevel
    by_cases hsw : pyStartsWith (pyLower (sn.getD "")) "heading" = true
    · rw [if_pos hsw, hc]
      simp [hd]
    · rw [if_neg hsw]
  · intro h0
    unfold getHeadingLevel at h0
    by_cases hsw : pyStartsWith (pyLower (sn.getD "")) "heading" = true
    · rw [if_pos hsw] at h0
      cases hc : (sn.getD "").data.getLast? with
      | none => rw [hc] at h0; cases h0
      | some c =>
          rw [hc] at h0
          by_cases hd : c.isDigit = true
          · simp only [hd, if_true] at h0
            exact ⟨hsw, c, rfl, hd, h0⟩
          · simp only [hd, if_false] at h0
            simp [hd] at h0
    · rw [if_neg hsw] at h0; cases h0

/-- Witness for the amended C5 at concrete style names. -/
theorem c5_witness :
    getHeadingLevel (some "Heading 2") = 2
    ∧ getHeadingLevel (some "Chapter 3") = 1
    ∧ getHeadingLevel none = 1 := by
  refine ⟨?_, ?_, ?_⟩
  · have h := (c5_amended (some "Heading 2")).1 (by decide) '2' (by decide) (by decide)
    rw [h]
    decide
  · exact (c5_amended (some "Chapter 3")).2.1 (by decide)
  · exact (c5_amended none).2.1 (by decide)

/-! ### Claim C6 -/

/-- Claim C6 as stated is false on the dict variant: a section titled
"A" IS present in the collection (with an empty element list), yet
`save_section` raises the not-found error, because `if not elements`
treats an empty list like an absent one.  The filesystem is untouched. -/
theorem c6_counterexample :
    lookupKV [("A", ([] : List Elem))] "A" = some []
    ∧ (saveB [("A", [])] "A" "out" ⟨[], [], []⟩).1 = Except.error "Section not found: A"
    ∧ (saveB [("A", [])] "A" "out" ⟨[], [], []⟩).2 = ⟨[], [], []⟩ :=
  ⟨by decide, rfl, rfl⟩

/-- Claim C6 amended: the list variant's `save_section` raises exactly
when no section matches the title case-insensitively; the dict variant's
raises exactly when the title is absent OR its element list is empty;
in either variant a raise happens before any directory creation or file
write, leaving the filesystem state unchanged. -/
theorem c6_amended (mA : List SectionA) (mB : List (String × List Elem))
    (title dir : String) (fs : FSState) :
    ((∃ e, (saveA mA title dir fs).1 = .error e)
      ↔ getSectionByTitleA mA title = none)
    ∧ ((∃ e, (saveB mB title dir fs).1 = .error e)
      ↔ (lookupKV mB title = none ∨ lookupKV mB title = some []))
    ∧ (∀ e, (saveA mA title dir fs).1 = .error e → (saveA mA title dir fs).2 = fs)
    ∧ (∀ e, (saveB mB title dir fs).1 = .error e → (saveB mB title dir fs).2 = fs) := by
  refine ⟨?_, ?_, ?_, ?_⟩
  · cases hA : getSectionByTitleA mA title with
    | none => simp [saveA, hA]
    | some sec => simp [saveA, hA]
  · cases hB : lookupKV mB title with
    | none => simp [saveB, hB]
    | some es =>
        by_cases hes : es.isEmpty = true
        · have he : es = [] := by simpa using hes
          subst he
          simp [saveB, hB]
        · have he : ¬ es = [] := by simpa using hes
          simp [saveB, hB, hes, he]
  · intro e he
    cases hA : getSectionByTitleA mA title with
    | none => simp [saveA, hA]
    | some sec => simp [saveA, hA] at he
  · intro e he
    cases hB : lookupKV mB title with
    | none => simp [saveB, hB]
    | some es =>
        by_cases hes : es.isEmpty = true
        · simp [saveB, hB, hes]
        · simp [saveB, hB, hes] at he

/-- Witness for the amended C6 at concrete collections. -/
theorem c6_witness :
    ((∃ e, (saveA [] "A" "out" ⟨[], [], []⟩).1 = Except.error e)
      ↔ getSectionByTitleA [] "A" = none)
    ∧ ((∃ e, (saveB [("B", [.table "x"])] "A" "out" ⟨[], [], []⟩).1 = Except.error e)
      ↔ (lookupKV [("B", [Elem.table "x"])] "A" = none
          ∨ lookupKV [("B", [Elem.table "x"])] "A" = some []))
    ∧ (∀ e, (saveA [] "A" "out" ⟨[], [], []⟩).1 = Except.error e
        → (saveA [] "A" "out" ⟨[], [], []⟩).2 = ⟨[], [], []⟩)
    ∧ (∀ e, (saveB [("B", [.table "x"])] "A" "out" ⟨[], [], []⟩).1 = Except.error e
        → (saveB [("B", [.table "x"])] "A" "out" ⟨[], [], []⟩).2 = ⟨[], [], []⟩) :=
  c6_amended [] [("B", [.table "x"])] "A" "out" ⟨[], [], []⟩

/-! ### Claim C7 -/

/-- Claim C7 as stated is false on the dict variant: saving the section
titled "A B" writes the file "out/A B.txt" under the RAW title, not
under the sanitized stem "A_B". -/
theorem c7_counterexample :
    (saveB [("A B", [.narrativeText "x"])] "A B" "out" ⟨[], [], []⟩).2.textFiles
      = [("out/A B.txt", "x")]
    ∧ sanitizeTitle "A B" = "A_B"
    ∧ ("out/A B.txt" : String) ≠ "out/" ++ sanitizeTitle "A B" ++ ".txt" :=
  ⟨by decide, by decide, by decide⟩

/-- Claim C7 amended: in the list variant a resolved section is written
to `<stem>.txt` where the stem replaces every non-alphanumeric character
of the title with an underscore, the output directory is created, and an
existing file at the path is overwritten (the lookup after the write
returns the new content for every prior filesystem state); the dict
variant instead names the text file with the raw title. -/
theorem c7_amended (secs : List SectionA) (title dir : String) (sec : SectionA)
    (fs : FSState) (h : getSectionByTitleA secs title = some sec) :
    (saveA secs title dir fs).1 = .ok ()
    ∧ dir ∈ (saveA secs title dir fs).2.dirs
    ∧ lookupKV (saveA secs title dir fs).2.textFiles
        (dir ++ "/" ++ sanitizeTitle sec.title ++ ".txt") = some (strSectionA sec)
    ∧ (∀ (mB : List (String × List Elem)) (bt : String) (bes : List Elem),
        lookupKV mB bt = some bes → bes.isEmpty = false →
        (getSectionTextB mB bt).getD "" ≠ "" →
        lookupKV (saveB mB bt dir fs).2.textFiles (dir ++ "/" ++ bt ++ ".txt")
          = some ((getSectionTextB mB bt).getD "")) := by
  refine ⟨by simp [saveA, h], ?_, ?_, ?_⟩
  · simp only [saveA, h, FSState.applyOp]
    exact (mem_insKey fs.dirs dir dir).mpr (Or.inr rfl)
  · simp only [saveA, h, FSState.applyOp]
    rw [lookup_upsert]
    simp
  · intro mB bt bes hl hne htxt
    have hops := imageOps_all_writeBytes bt dir bes
    simp only [saveB, hl, hne, if_neg (by simp : ¬ (false = true)), htxt, if_neg htxt]
    rw [foldl_applyOp_textFiles _ _ hops]
    simp only [FSState.applyOp, if_false]
    rw [lookup_upsert]
    simp

/-- Witness for the amended C7 at a concrete collection (resolved
case-insensitively). -/
theorem c7_witness :
    (saveA [⟨"A B", ["x"], 1⟩] "a b" "out" ⟨[], [], []⟩).1 = .ok ()
    ∧ "out" ∈ (saveA [⟨"A B", ["x"], 1⟩] "a b" "out" ⟨[], [], []⟩).2.dirs
    ∧ lookupKV (saveA [⟨"A B", ["x"], 1⟩] "a b" "out" ⟨[], [], []⟩).2.textFiles
        ("out" ++ "/" ++ sanitizeTitle (SectionA.mk "A B" ["x"] 1).title ++ ".txt")
        = some (strSectionA ⟨"A B", ["x"], 1⟩)
    ∧ (∀ (mB : List (String × List Elem)) (bt : String) (bes : List Elem),
        lookupKV mB bt = some bes → bes.isEmpty = false →
        (getSectionTextB mB bt).getD "" ≠ "" →
        lookupKV (saveB mB bt "out" ⟨[], [], []⟩).2.textFiles ("out" ++ "/" ++ bt ++ ".txt")
          = some ((getSectionTextB mB bt).getD "")) :=
  c7_amended [⟨"A B", ["x"], 1⟩] "a b" "out" ⟨"A B", ["x"], 1⟩ ⟨[], [], []⟩ (by decide)

/-! ### Claim C8 -/

/-- Claim C8 as stated is false in its Image part: the renderer emits a
BLANK LINE before "[Image]" (the part is the string "\n[Image]", joined
after a preceding newline), so a section [NarrativeText "x", Image]
renders as "x\n\n[Image]", not "x\n[Image]". -/
theorem c8_counterexample :
    getSectionTextB [("S", [.narrativeText "x", .image none none])] "S"
      = some "x\n\n[Image]"
    ∧ getSectionTextB [("S", [.narrativeText "x", .image none none])] "S"
      ≠ some "x\n[Image]" :=
  ⟨by decide, by decide⟩

/-- Claim C8 amended: the rendered section text joins per-element parts
with newlines; a Table contributes a blank line, the literal line
"Table:" and the table text; an Image contributes a blank line and the
line "[Image]", followed by a "Caption: ..." line when a non-empty
caption is attached; a FigureCaption contributes a blank line and a
caption line; NarrativeText, ListItem and generic Text contribute their
text verbatim as one line. -/
theorem c8_amended (m : List (String × List Elem)) (title : String) (es : List Elem)
    (cap x tbl : String) (b : Option (List Nat))
    (hm : lookupKV m title = some es) (hne : es.isEmpty = false)
    (hp : partsB es ≠ []) (hcap : cap ≠ "") :
    getSectionTextB m title = some (joinLines (partsB es))
    ∧ joinLines (partsB (es ++ [.table tbl]))
        = joinLines (partsB es) ++ "\n" ++ ("\n" ++ ("Table:" ++ ("\n" ++ tbl)))
    ∧ joinLines (partsB (es ++ [.image b none]))
        = joinLines (partsB es) ++ "\n" ++ ("\n" ++ "[Image]")
    ∧ joinLines (partsB (es ++ [.image b (some cap)]))
        = joinLines (partsB es) ++ "\n"
            ++ (("\n" ++ "[Image]") ++ ("\n" ++ ("Caption: " ++ cap)))
    ∧ joinLines (partsB (es ++ [.figureCaption x]))
        = joinLines (partsB es) ++ "\n" ++ ("\n" ++ ("Caption: " ++ x))
    ∧ joinLines (partsB (es ++ [.narrativeText x])) = joinLines (partsB es) ++ "\n" ++ x
    ∧ joinLines (partsB (es ++ [.listItem x])) = joinLines (partsB es) ++ "\n" ++ x
    ∧ joinLines (partsB (es ++ [.plainText x])) = joinLines (partsB es) ++ "\n" ++ x := by
  refine ⟨?_, ?_, ?_, ?_, ?_, ?_, ?_, ?_⟩
  · simp [getSectionTextB, hm, hne]
  · rw [partsB_append, joinLines_append _ _ hp (by simp [partsOfB])]
    rfl
  · rw [partsB_append, joinLines_append _ _ hp (by simp [partsOfB, truthyStr])]
    rfl
  · rw [partsB_append, joinLines_append _ _ hp (by simp [partsOfB, truthyStr])]
    rw [show partsOfB (.image b (some cap))
          = "\n[Image]" :: (if truthyStr (some cap) then ["Caption: " ++ cap] else [])
        from rfl]
    rw [show truthyStr (some cap) = true by simp [truthyStr, hcap]]
    rfl
  · rw [partsB_append, joinLines_append _ _ hp (by simp [partsOfB])]
    rfl
  · rw [partsB_append, joinLines_append _ _ hp (by simp [partsOfB])]
    rfl
  · rw [partsB_append, joinLines_append _ _ hp (by simp [partsOfB])]
    rfl
  · rw [partsB_append, joinLines_append _ _ hp (by simp [partsOfB])]
    rfl

/-- Witness for the amended C8 at a concrete section. -/
theorem c8_witness :
    getSectionTextB [("S", [.narrativeText "x"])] "S"
      = some (joinLines (partsB [.narrativeText "x"]))
    ∧ joinLines (partsB ([.narrativeText "x"] ++ [.table "T"]))
        = joinLines (partsB [.narrativeText "x"]) ++ "\n"
            ++ ("\n" ++ ("Table:" ++ ("\n" ++ "T")))
    ∧ joinLines (partsB ([.narrativeText "x"] ++ [.image none none]))
        = joinLines (partsB [.narrativeText "x"]) ++ "\n" ++ ("\n" ++ "[Image]")
    ∧ joinLines (partsB ([.narrativeText "x"] ++ [.image none (some "c")]))
        = joinLines (partsB [.narrativeText "x"]) ++ "\n"
            ++ (("\n" ++ "[Image]") ++ ("\n" ++ ("Caption: " ++ "c")))
    ∧ joinLines (partsB ([.narrativeText "x"] ++ [.figureCaption "y"]))
        = joinLines (partsB [.narrativeText "x"]) ++ "\n" ++ ("\n" ++ ("Caption: " ++ "y"))
    ∧ joinLines (partsB ([.narrativeText "x"] ++ [.narrativeText "y"]))
        = joinLines (partsB [.narrativeText "x"]) ++ "\n" ++ "y"
    ∧ joinLines (partsB ([.narrativeText "x"] ++ [.listItem "y"]))
        = joinLines (partsB [.narrativeText "x"]) ++ "\n" ++ "y"
    ∧ joinLines (partsB ([.narrativeText "x"] ++ [.plainText "y"]))
        = joinLines (partsB [.narrativeText "x"]) ++ "\n" ++ "y" :=
  c8_amended [("S", [.narrativeText "x"])] "S" [.narrativeText "x"] "c" "y" "T" none
    (by decide) (by decide) (by decide) (by decide)

/-! ### Claim C10 -/

/-- Claim C10 (confirmed): the image file name number is the 1-based
position of the Image element among ALL elements of the section
(`enumerate(elements)` with `i+1`), not its ordinal among the images: a
section [NarrativeText, Image] writes `<title>_image_2.png`, and two
images separated by text get the non-consecutive numbers 1 and 3. -/
theorem c10_theorem (title dir : String) (es : List Elem) (i : Nat) (b : List Nat)
    (cap : Option String) (h : es[i]? = some (.image (some b) cap)) (hb : b ≠ []) :
    FileOp.writeBytes (dir ++ "/" ++ title ++ "_image_" ++ toString (i + 1) ++ ".png") b
      ∈ imageOps title dir es
    ∧ imageOps "Sec" "out" [.narrativeText "intro", .image (some [7]) none]
        = [.writeBytes "out/Sec_image_2.png" [7]]
    ∧ imageOps "S" "o" [.image (some [1]) none, .narrativeText "x", .image (some [2]) none]
        = [.writeBytes "o/S_image_1.png" [1], .writeBytes "o/S_image_3.png" [2]] := by
  refine ⟨?_, by decide, by decide⟩
  unfold imageOps
  apply List.mem_filterMap.mpr
  refine ⟨(i, .image (some b) cap), List.mk_mem_enum_iff_getElem?.mpr h, ?_⟩
  have hbe : b.isEmpty = false := by
    cases b with
    | nil => cases hb rfl
    | cons y ys => rfl
  simp [hbe]

/-- Witness for C10 at a concrete section. -/
theorem c10_witness :
    FileOp.writeBytes ("o" ++ "/" ++ "S" ++ "_image_" ++ toString (0 + 1) ++ ".png") [5]
      ∈ imageOps "S" "o" [.image (some [5]) none]
    ∧ imageOps "Sec" "out" [.narrativeText "intro", .image (some [7]) none]
        = [.writeBytes "out/Sec_image_2.png" [7]]
    ∧ imageOps "S" "o" [.image (some [1]) none, .narrativeText "x", .image (some [2]) none]
        = [.writeBytes "o/S_image_1.png" [1], .writeBytes "o/S_image_3.png" [2]] :=
  c10_theorem "S" "o" [.image (some [5]) none] 0 [5] none (by decide) (by decide)

end WordFileParser
